import Mathlib

/-!
Verification of the anonymized HTTP retrieval client (download.rs).

Strings are modelled as lists of characters (`Str`), byte buffers as lists of
natural numbers below 256.  The Rust string helpers used by the source
(trim, to_lowercase, starts_with, split, contains, lines) are embedded as
functions on `Str` that mirror the behaviour of the corresponding Rust
standard library functions on the inputs the program handles.
-/

namespace Download

abbrev Str := List Char

/-- The set of characters with the Unicode White_Space property, as used by
Rust char::is_whitespace (hence by str::trim and str::split_whitespace). -/
def rustIsWhitespace (c : Char) : Bool :=
  [0x09, 0x0A, 0x0B, 0x0C, 0x0D, 0x20, 0x85, 0xA0, 0x1680,
    0x2000, 0x2001, 0x2002, 0x2003, 0x2004, 0x2005, 0x2006, 0x2007,
    0x2008, 0x2009, 0x200A, 0x2028, 0x2029, 0x202F, 0x205F, 0x3000].contains c.toNat

/-- Model of Rust str::trim: remove leading and trailing whitespace. -/
def rsTrim (s : Str) : Str :=
  ((s.dropWhile rustIsWhitespace).reverse.dropWhile rustIsWhitespace).reverse

/-- Model of Rust str::trim_matches with a single-character pattern:
remove all leading and all trailing occurrences of the character. -/
def trimMatchesChar (c : Char) (s : Str) : Str :=
  (((s.dropWhile (fun d => d == c)).reverse.dropWhile (fun d => d == c))).reverse

/-- Model of Rust str::to_lowercase on the ASCII inputs the program handles. -/
def toLowerStr (s : Str) : Str := s.map Char.toLower

/-- Model of Rust str::starts_with for string patterns. -/
def isPrefixOfB (p s : Str) : Bool := List.isPrefixOf p s

/-- Model of Rust str::find for string patterns: index of the first
occurrence of pat as a contiguous sublist. -/
def findSub (pat : Str) : Str → Option Nat
  | [] => if pat.isEmpty then some 0 else none
  | c :: rest =>
    if List.isPrefixOf pat (c :: rest) then some 0
    else (findSub pat rest).map (fun i => i + 1)

/-- Model of Rust str::contains for string patterns. -/
def containsSub (pat s : Str) : Bool := (findSub pat s).isSome

/-- Model of Rust str::split with a single-character separator
(always returns at least one, possibly empty, segment). -/
def splitOnChar (c : Char) : Str → List Str
  | [] => [[]]
  | d :: rest =>
    if d == c then [] :: splitOnChar c rest
    else
      match splitOnChar c rest with
      | [] => [[d]]
      | p :: ps => (d :: p) :: ps

/-- Everything after the first occurrence of a colon; equals the Rust
idiom of splitting on colons, skipping the first segment, and joining the
remainder back with colons. -/
def afterFirstColon (l : Str) : Str :=
  (l.dropWhile (fun c => c != ':')).drop 1

/-- Model of Rust line.split-on-colon .nth(1): the segment between the
first and the second colon, or the empty string when there is no colon
(matching the unwrap_or of the source). -/
def colonNth1 (l : Str) : Str :=
  if l.any (fun c => c == ':') then (afterFirstColon l).takeWhile (fun c => c != ':')
  else []

/-- Strip one trailing carriage return, as Rust str::lines does per line. -/
def stripCR (l : Str) : Str :=
  if l.getLast? = some '\r' then l.dropLast else l

/-- Model of Rust str::lines: split on the newline character, drop a final
empty segment produced by a trailing newline, strip one trailing carriage
return from each line. -/
def rsLines (s : Str) : List Str :=
  if s.isEmpty then []
  else
    let parts := splitOnChar '\n' s
    let parts := if parts.getLast? = some [] then parts.dropLast else parts
    parts.map stripCR

/-- Accumulator pass for split_whitespace. -/
def splitWsAux : Str → Str → List Str
  | cur, [] => if cur.isEmpty then [] else [cur.reverse]
  | cur, c :: rest =>
    if rustIsWhitespace c then
      if cur.isEmpty then splitWsAux [] rest else cur.reverse :: splitWsAux [] rest
    else splitWsAux (c :: cur) rest

/-- Model of Rust str::split_whitespace: maximal runs of non-whitespace. -/
def splitWhitespace (s : Str) : List Str := splitWsAux [] s

/-- Decimal digit accumulation for unsigned integer parsing. -/
def digitsValAux (acc : Nat) : Str → Option Nat
  | [] => some acc
  | c :: r => if c.isDigit then digitsValAux (acc * 10 + (c.toNat - 48)) r else none

/-- Model of Rust unsigned FromStr with an exclusive upper bound: an
optional leading plus sign, then one or more decimal digits, rejecting
values at or above the bound (integer overflow in the source). -/
def parseUInt (bound : Nat) (s : Str) : Option Nat :=
  let t := if s.head? = some '+' then s.drop 1 else s
  if t.isEmpty then none
  else
    match digitsValAux 0 t with
    | none => none
    | some v => if v < bound then some v else none

/-- Model of str::parse into u64, as used for the Retry-After value. -/
def parseU64 (s : Str) : Option Nat := parseUInt (2 ^ 64) s

/-- Model of str::parse into u16, as used for the status code. -/
def parseU16 (s : Str) : Option Nat := parseUInt (2 ^ 16) s

/-- Value of a hexadecimal digit character, as Rust char::to_digit 16. -/
def hexDigitVal (c : Char) : Option Nat :=
  if 48 ≤ c.toNat ∧ c.toNat ≤ 57 then some (c.toNat - 48)
  else if 97 ≤ c.toNat ∧ c.toNat ≤ 102 then some (c.toNat - 87)
  else if 65 ≤ c.toNat ∧ c.toNat ≤ 70 then some (c.toNat - 55)
  else none

/-- Hexadecimal digit accumulation. -/
def hexValAux (acc : Nat) : Str → Option Nat
  | [] => some acc
  | c :: r =>
    match hexDigitVal c with
    | some d => hexValAux (acc * 16 + d) r
    | none => none

/-- Model of Rust usize::from_str_radix with radix 16 on a 64-bit target:
an optional leading plus sign, then one or more hexadecimal digits,
rejecting values that overflow usize. -/
def parseHexUsize (s : Str) : Option Nat :=
  let t := if s.head? = some '+' then s.drop 1 else s
  if t.isEmpty then none
  else
    match hexValAux 0 t with
    | none => none
    | some v => if v < 2 ^ 64 then some v else none

/-- Decimal rendering with structural fuel (any fuel at least the value
gives the digits). -/
def natToStrAux (fuel n : Nat) : Str :=
  if n < 10 then [Char.ofNat (48 + n)]
  else
    match fuel with
    | 0 => [Char.ofNat (48 + n % 10)]
    | f + 1 => natToStrAux f (n / 10) ++ [Char.ofNat (48 + n % 10)]

/-- Decimal rendering of a natural number, as the Display format of u16. -/
def natToStr (n : Nat) : Str := natToStrAux n n

/-! ## Byte-level helpers: UTF-8 decoding and CRLF search -/

/-- True when the optional byte is present and inside the inclusive range. -/
def byteInRange (lo hi : Nat) (o : Option Nat) : Bool :=
  match o with
  | some x => decide (lo ≤ x) && decide (x ≤ hi)
  | none => false

/-- Decoding pass with structural fuel; any fuel at least the number of
bytes gives the decoding. -/
def utf8DecodeAux (fuel : Nat) : List Nat → Option Str
  | [] => some []
  | b :: rest =>
    match fuel with
    | 0 => none
    | f + 1 =>
      if b < 0x80 then (utf8DecodeAux f rest).map (fun s => Char.ofNat b :: s)
      else if b < 0xC2 then none
      else if b ≤ 0xDF then
        if byteInRange 0x80 0xBF rest[0]? then
          (utf8DecodeAux f (rest.drop 1)).map
            (fun s => Char.ofNat ((b - 0xC0) * 0x40 + (rest[0]?.getD 0 - 0x80)) :: s)
        else none
      else if b ≤ 0xEF then
        if byteInRange (if b = 0xE0 then 0xA0 else 0x80) (if b = 0xED then 0x9F else 0xBF)
              rest[0]? && byteInRange 0x80 0xBF rest[1]? then
          (utf8DecodeAux f (rest.drop 2)).map
            (fun s => Char.ofNat ((b - 0xE0) * 0x1000 +
              (rest[0]?.getD 0 - 0x80) * 0x40 + (rest[1]?.getD 0 - 0x80)) :: s)
        else none
      else if b ≤ 0xF4 then
        if byteInRange (if b = 0xF0 then 0x90 else 0x80) (if b = 0xF4 then 0x8F else 0xBF)
              rest[0]? && byteInRange 0x80 0xBF rest[1]? && byteInRange 0x80 0xBF rest[2]? then
          (utf8DecodeAux f (rest.drop 3)).map
            (fun s => Char.ofNat ((b - 0xF0) * 0x40000 + (rest[0]?.getD 0 - 0x80) * 0x1000 +
              (rest[1]?.getD 0 - 0x80) * 0x40 + (rest[2]?.getD 0 - 0x80)) :: s)
        else none
      else none

/-- Model of Rust std str::from_utf8 as a list of characters: strict UTF-8
decoding of a byte list, rejecting invalid sequences (overlong forms,
surrogates, out-of-range code points). -/
def utf8Decode (l : List Nat) : Option Str := utf8DecodeAux l.length l

/-- Position of the first CRLF pair in a byte list, the windows-of-two
position search of parse_chunked_body. -/
def findCRLF : List Nat → Option Nat
  | [] => none
  | a :: rest =>
    if a = 13 ∧ rest.head? = some 10 then some 0
    else (findCRLF rest).map (fun i => i + 1)

/-! ## ChunkedBodyDecoder: parse_chunked_body (download.rs lines 11 to 47)

The Rust loop advances a cursor through the buffer; it is embedded as a
recursion on the remaining bytes, with a structural fuel argument equal to
the length of the buffer.  Each loop iteration that recurses consumes at
least one byte (a size line of at least one digit, its CRLF, at least one
payload byte and the skipped CRLF), so fuel equal to the initial length is
never exhausted; the fuel only makes the recursion structural. -/

def parseChunkedAux : Nat → List Nat → Option (List Nat)
  | _, [] => some []
  | 0, _ :: _ => none
  | fuel + 1, b :: rest =>
    match findCRLF (b :: rest) with
    | none => none
    | some lineEnd =>
      match utf8Decode ((b :: rest).take lineEnd) with
      | none => none
      | some sizeStr =>
        match parseHexUsize (rsTrim sizeStr) with
        | none => none
        | some chunkSize =>
          let body := (b :: rest).drop (lineEnd + 2)
          if chunkSize = 0 then some []
          else if body.length < chunkSize then none
          else
            match parseChunkedAux fuel (body.drop (chunkSize + 2)) with
            | none => none
            | some tail => some (body.take chunkSize ++ tail)

/-- Embedding of parse_chunked_body: decode an HTTP/1.1 chunked transfer
encoding.  Reads a hexadecimal size line terminated by CRLF, stops at a
zero size, otherwise takes exactly that many payload bytes, skips the two
bytes of the trailing CRLF and continues; fails when no CRLF follows a
size line, the size is not valid hexadecimal, or fewer bytes remain than
the declared size. -/
def parse_chunked_body (data : List Nat) : Option (List Nat) :=
  parseChunkedAux data.length data

/-! ## A chunked-stream encoder, from the words of the specification,
used to state the round-trip property of claim C3. -/

/-- Lowercase hexadecimal digit character. -/
def hexChar (n : Nat) : Char :=
  if n < 10 then Char.ofNat (48 + n) else Char.ofNat (87 + n)

/-- Lowercase hexadecimal rendering, with structural fuel (the fuel is
only a recursion bound; any fuel at least the value gives the digits). -/
def toHexAux (fuel n : Nat) : Str :=
  if n < 16 then [hexChar n]
  else
    match fuel with
    | 0 => [hexChar (n % 16)]
    | f + 1 => toHexAux f (n / 16) ++ [hexChar (n % 16)]

/-- Lowercase hexadecimal rendering of a natural number. -/
def toHex (n : Nat) : Str := toHexAux n n

/-- Bytes of an ASCII character list. -/
def strToBytes (s : Str) : List Nat := s.map Char.toNat

/-- One encoded chunk: hexadecimal size line, CRLF, payload, CRLF. -/
def encodeChunk (c : List Nat) : List Nat :=
  strToBytes (toHex c.length) ++ [13, 10] ++ c ++ [13, 10]

/-- A valid chunked stream for the given chunk list: the encoded chunks
followed by the zero-size terminating chunk. -/
def encodeChunked (chunks : List (List Nat)) : List Nat :=
  (chunks.map encodeChunk).flatten ++ strToBytes (toHex 0) ++ [13, 10, 13, 10]

/-! ## URL model

The source uses the url crate; the program reads back only the scheme,
the host and the path.  The parser below models url::Url::parse on the
plain absolute URLs the program handles (no percent-encoding, no dot
segments, no userinfo): scheme before the colon-slash-slash marker, host
up to the first slash, colon, question mark or hash, an optional port that
is skipped, and the path defaulting to a single slash. -/

structure UrlParts where
  scheme : Str
  host : Str
  path : Str
deriving Repr, DecidableEq

def parseUrl (s : Str) : Option UrlParts :=
  match findSub (("://").toList) s with
  | none => none
  | some i =>
    let scheme := s.take i
    let rest := s.drop (i + 3)
    let host := rest.takeWhile (fun c => c != '/' && c != ':' && c != '?' && c != '#')
    if scheme.isEmpty || host.isEmpty then none
    else
      let afterHost := rest.drop host.length
      let afterPort :=
        if afterHost.head? = some ':' then
          afterHost.dropWhile (fun c => c != '/' && c != '?' && c != '#')
        else afterHost
      let path := afterPort.takeWhile (fun c => c != '?' && c != '#')
      some ⟨toLowerStr scheme, toLowerStr host, if path.isEmpty then ['/'] else path⟩

/-! ## FilenameResolver (download.rs lines 49 to 83) -/

/-- The transformation applied to the text after the first filename=
occurrence (download.rs lines 55 to 62): trim, strip all leading and
trailing double quotes, strip all leading and trailing single quotes,
truncate at the first semicolon, trim again. -/
def parse_filename_value (v : Str) : Str :=
  rsTrim (((splitOnChar ';' (trimMatchesChar (Char.ofNat 39)
    (trimMatchesChar (Char.ofNat 34) (rsTrim v)))).headD []))

/-- The segment of s between the first and the second occurrence of pat,
Rust str::split(pat).nth(1). -/
def splitSubNth1 (pat s : Str) : Option Str :=
  match findSub pat s with
  | none => none
  | some i =>
    let after := s.drop (i + pat.length)
    match findSub pat after with
    | none => some after
    | some j => some (after.take j)

/-- Line scan of extract_filename_from_headers. -/
def extractFilenameLines : List Str → Option Str
  | [] => none
  | line :: rest =>
    if isPrefixOfB (("content-disposition:").toList) (toLowerStr line) then
      match splitSubNth1 (("filename=").toList) line with
      | some part =>
        if (parse_filename_value part).isEmpty then extractFilenameLines rest
        else some (parse_filename_value part)
      | none => extractFilenameLines rest
    else extractFilenameLines rest

/-- Embedding of extract_filename_from_headers (download.rs lines 49 to 70):
search the header lines in order for a Content-Disposition header carrying
a non-empty filename attribute. -/
def extract_filename_from_headers (headers : Str) : Option Str :=
  extractFilenameLines (rsLines headers)

/-- Embedding of extract_filename_from_url (download.rs lines 72 to 83):
the last slash-separated segment of the path, or the configured default
when that segment is empty or a single slash. -/
def extract_filename_from_url (path : Str) (defaultFilename : Str) : Str :=
  if (((splitOnChar '/' path).getLast?).getD (("download").toList)).isEmpty ||
      ((splitOnChar '/' path).getLast?).getD (("download").toList) = ['/'] then
    defaultFilename
  else ((splitOnChar '/' path).getLast?).getD (("download").toList)

/-- The filename resolution of download_file (download.rs lines 419 to 422):
header-derived filename when available, otherwise derived from the URL. -/
def resolveFilename (headers : Str) (u : UrlParts) (defaultFilename : Str) : Str :=
  match extract_filename_from_headers headers with
  | some f => f
  | none => extract_filename_from_url u.path defaultFilename

/-! ## Status interpretation (download.rs lines 306 to 445) -/

/-- The status line: first header line, or the Unknown placeholder. -/
def statusLineOf (headers : Str) : Str :=
  (rsLines headers).headD (("Unknown").toList)

/-- The redirect check of download_file (lines 317 to 322): the status
line contains one of the five redirect codes as a spaced substring. -/
def hasRedirectStatus (statusLine : Str) : Bool :=
  containsSub ((" 301 ").toList) statusLine ||
  containsSub ((" 302 ").toList) statusLine ||
  containsSub ((" 303 ").toList) statusLine ||
  containsSub ((" 307 ").toList) statusLine ||
  containsSub ((" 308 ").toList) statusLine

/-- Location extraction (lines 325 to 333): the first header line whose
lowercase form starts with the location prefix, taking the trimmed text
after the first colon. -/
def locationValue (headers : Str) : Option Str :=
  ((rsLines headers).find? (fun line => isPrefixOfB (("location:").toList) (toLowerStr line))).map
    (fun line => rsTrim (afterFirstColon line))

/-- Text before the last slash of the path, Rust rsplit_once mapping to
the first component, with the empty string when no slash occurs. -/
def lastSlashIdx (c : Char) : Str → Option Nat
  | [] => none
  | d :: rest =>
    match lastSlashIdx c rest with
    | some i => some (i + 1)
    | none => if d == c then some 0 else none

def basePathOf (p : Str) : Str :=
  match lastSlashIdx '/' p with
  | some i => p.take i
  | none => []

/-- Redirect resolution of download_file (lines 337 to 358): absolute
http or https URLs are used verbatim, slash-prefixed paths are resolved
against scheme and host, anything else against the directory of the
current path. -/
def resolveRedirect (u : UrlParts) (newUrl : Str) : Str :=
  if isPrefixOfB (("http://").toList) newUrl || isPrefixOfB (("https://").toList) newUrl then
    newUrl
  else if newUrl.head? = some '/' then
    u.scheme ++ ("://").toList ++ u.host ++ newUrl
  else
    u.scheme ++ ("://").toList ++ u.host ++ basePathOf u.path ++ ['/'] ++ newUrl

/-- The Retry-After value (lines 379 to 393): the first header line whose
lowercase form starts with the retry-after prefix, taking the trimmed
segment between the first and second colon. -/
def retryAfterValue (headers : Str) : Option Str :=
  ((rsLines headers).find? (fun line => isPrefixOfB (("retry-after:").toList) (toLowerStr line))).map
    (fun line => rsTrim (colonNth1 line))

/-- The wait in seconds after a 429 (lines 377 to 393): the Retry-After
value parsed as u64, defaulting to 60 when the header is absent or the
value does not parse as an integer. -/
def retryAfterOf (headers : Str) : Nat :=
  match retryAfterValue headers with
  | none => 60
  | some v =>
    match parseU64 v with
    | some n => n
    | none => 60

/-- The chunked test (lines 407 to 410): the lowercase header block
contains the chunked transfer-encoding marker. -/
def isChunkedHeaders (headers : Str) : Bool :=
  containsSub (("transfer-encoding: chunked").toList) (toLowerStr headers)

/-- Body decoding (lines 407 to 415): through parse_chunked_body when the
chunked marker is present, otherwise the raw bytes unchanged. -/
def decode_body (headers : Str) (rawBody : List Nat) : Option (List Nat) :=
  if isChunkedHeaders headers then parse_chunked_body rawBody else some rawBody

/-! ## The download_file state machine (download.rs lines 212 to 451)

A scripted network stands in for the transport: the list of responses the
successive connection attempts receive, each already split at the first
double-CRLF into its header block and raw body bytes (the split itself,
lines 309 to 311, fails the call with an invalid-response error when no
separator exists; claims never exercise that path).  The run also records
the observable effects: the rate-limit sleep before every connection
attempt, the connection attempt itself, and the Retry-After sleep. -/

structure RawResponse where
  headers : Str
  body : List Nat
deriving Repr, DecidableEq

inductive Event
  | sleepRate
  | connect (url : Str)
  | sleepRetry (seconds : Nat)
deriving Repr, DecidableEq

inductive StepOutcome
  | redirect (newUrl : Str)
  | retry (seconds : Nat)
  | success (filename : Str) (body : List Nat)
  | fail (msg : Str)
deriving Repr, DecidableEq

inductive DlResult
  | ok (filename : Str) (body : List Nat)
  | err (msg : Str)
  | outOfScript
deriving Repr, DecidableEq

/-- Interpretation of one response inside the download_file loop
(lines 306 to 445), in source order: redirect statuses first, then rate
limiting, then the success test, then body decoding and filename
resolution. -/
def interpretResponse (u : UrlParts) (defaultFilename : Str) (r : RawResponse) : StepOutcome :=
  let statusLine := statusLineOf r.headers
  if hasRedirectStatus statusLine then
    match locationValue r.headers with
    | some newUrl => .redirect (resolveRedirect u newUrl)
    | none => .fail (("Redirect response without Location header").toList)
  else if containsSub ((" 429 ").toList) statusLine then
    .retry (retryAfterOf r.headers)
  else if !(containsSub (("200 OK").toList) r.headers ||
            containsSub (("HTTP/2 200").toList) r.headers) then
    .fail ((("HTTP request failed: ").toList) ++ statusLine)
  else
    match decode_body r.headers r.body with
    | none => .fail (("Invalid chunked body").toList)
    | some body => .success (resolveFilename r.headers u defaultFilename) body

/-- The redirect and retry loop of download_file (lines 215 to 450).
Each iteration checks the redirect budget, sleeps the rate-limit delay,
parses the current URL, connects, requires the https scheme and
interprets the scripted response; a redirect continues with the resolved
URL and an incremented count, a 429 sleeps and continues with the same
URL and count. -/
def dlLoop (maxRedirects : Nat) (defaultFilename : Str) (script : List RawResponse)
    (currentUrl : Str) (redirects : Nat) : DlResult × List Event :=
    if maxRedirects ≤ redirects then (.err (("Too many redirects").toList), [])
    else
      match parseUrl currentUrl with
      | none => (.err (("Failed to parse URL").toList), [Event.sleepRate])
      | some u =>
        if u.scheme ≠ ("https").toList then
          (.err (("Only HTTPS is supported in this implementation").toList),
            [Event.sleepRate, Event.connect currentUrl])
        else
          match script with
          | [] => (.outOfScript, [Event.sleepRate, Event.connect currentUrl])
          | r :: rest =>
            match interpretResponse u defaultFilename r with
            | .redirect newUrl =>
              let k := dlLoop maxRedirects defaultFilename rest newUrl (redirects + 1)
              (k.fst, Event.sleepRate :: Event.connect currentUrl :: k.snd)
            | .retry n =>
              let k := dlLoop maxRedirects defaultFilename rest currentUrl redirects
              (k.fst, Event.sleepRate :: Event.connect currentUrl :: Event.sleepRetry n :: k.snd)
            | .success filename body =>
              (.ok filename body, [Event.sleepRate, Event.connect currentUrl])
            | .fail msg =>
              (.err msg, [Event.sleepRate, Event.connect currentUrl])

/-- Embedding of download_file (lines 212 to 451): run the loop from the
requested URL with a redirect count of zero. -/
def download_file (maxRedirects : Nat) (defaultFilename : Str) (url : Str)
    (script : List RawResponse) : DlResult × List Event :=
  dlLoop maxRedirects defaultFilename script url 0

/-! ## download_web_service (download.rs lines 465 to 644) -/

inductive WsResult
  | ok (body : List Nat) (filename : Str)
  | err (msg : Str)
  | noResponse
deriving Repr, DecidableEq

/-- The suggested filename of download_web_service (lines 619 to 634):
by recognized content type, else header-derived, else the generic name. -/
def wsFilename (headers : Str) : Str :=
  let lower := toLowerStr headers
  if containsSub (("content-type: application/json").toList) lower then
    ("response.json").toList
  else if containsSub (("content-type: text/csv").toList) lower then
    ("response.csv").toList
  else if containsSub (("content-type: application/sparql-results+json").toList) lower then
    ("response.json").toList
  else
    (extract_filename_from_headers headers).getD (("response.txt").toList)

/-- Embedding of download_web_service: a single request with no
continuation loop.  Sleeps the rate-limit delay, parses the URL,
connects, requires https, parses the status code from the status line,
fails on any status of 400 or above, otherwise decodes the body and
returns it with a suggested filename.  The scripted response is optional;
its absence models a connection with no modelled answer. -/
def download_web_service (url : Str) (resp : Option RawResponse) : WsResult × List Event :=
  match parseUrl url with
  | none => (.err (("Failed to parse URL").toList), [Event.sleepRate])
  | some u =>
    match resp with
    | none => (.noResponse, [Event.sleepRate, Event.connect url])
    | some r =>
      if u.scheme ≠ ("https").toList then
        (.err (("Only HTTPS is supported for web services").toList),
          [Event.sleepRate, Event.connect url])
      else
        let ev := [Event.sleepRate, Event.connect url]
        match (rsLines r.headers).head? with
        | none => (.err (("Empty response").toList), ev)
        | some statusLine =>
          let parts := splitWhitespace statusLine
          if parts.length < 2 then (.err (("Invalid HTTP status line").toList), ev)
          else
            match parseU16 (parts.getD 1 []) with
            | none => (.err (("Failed to parse status code").toList), ev)
            | some code =>
              if 400 ≤ code then (.err ((("HTTP error: ").toList) ++ natToStr code), ev)
              else
                match decode_body r.headers r.body with
                | none => (.err (("Invalid chunked body").toList), ev)
                | some body => (.ok body (wsFilename r.headers), ev)

/-- Count of rate-limit sleeps in a trace. -/
def countSleepRate (trace : List Event) : Nat :=
  trace.countP (fun e => e matches Event.sleepRate)

/-- Count of connection attempts in a trace. -/
def countConnect (trace : List Event) : Nat :=
  trace.countP (fun e => e matches Event.connect _)

/-- Every connection attempt in the trace is immediately preceded by a
rate-limit sleep. -/
def connectsPreceded : List Event → Bool
  | [] => true
  | Event.sleepRate :: Event.connect _ :: rest => connectsPreceded rest
  | Event.connect _ :: _ => false
  | _ :: rest => connectsPreceded rest

/-- A scripted prefix that download_file follows as a redirect chain from
the given URL: every response is a redirect with a Location, every URL on
the way parses with the https scheme. -/
def chainOk (d : Str) : List RawResponse → Str → Bool
  | [], _ => true
  | r :: rest, url =>
    match parseUrl url with
    | none => false
    | some u =>
      if u.scheme = ("https").toList then
        match interpretResponse u d r with
        | .redirect nu => chainOk d rest nu
        | _ => false
      else false

/-- The URL reached after following a scripted redirect chain. -/
def chainFinalUrl (d : Str) : List RawResponse → Str → Str
  | [], url => url
  | r :: rest, url =>
    match parseUrl url with
    | none => url
    | some u =>
      match interpretResponse u d r with
      | .redirect nu => chainFinalUrl d rest nu
      | _ => url

/-- Filename choice following the words of claim C8: header-derived
filename first, else the last non-empty path segment of the URL, else the
configured default (the comparison definition for the refinement claim;
the embedding of the source is resolveFilename). -/
def specClaimFilename (headers : Str) (u : UrlParts) (defaultFilename : Str) : Str :=
  match extract_filename_from_headers headers with
  | some f => f
  | none =>
    match ((splitOnChar '/' u.path).filter (fun seg => !seg.isEmpty)).getLast? with
    | some seg => seg
    | none => defaultFilename

/-! ## Concrete scripted data for counterexamples and witnesses -/

def urlEx : Str := ("https://example.test/a").toList

def resp301 : RawResponse :=
  ⟨("HTTP/1.1 301 Moved Permanently\r\nLocation: /b").toList, [1, 2]⟩

def resp429 : RawResponse :=
  ⟨("HTTP/1.1 429 Too Many Requests\r\nRetry-After: 3").toList, []⟩

def resp200 : RawResponse :=
  ⟨("HTTP/1.1 200 OK\r\nContent-Type: text/plain").toList, [104, 105]⟩

def resp204 : RawResponse :=
  ⟨("HTTP/1.1 204 No Content").toList, []⟩

def urlSlash : Str := ("https://x.example/a/b/").toList

def respPlain200 : RawResponse := ⟨("HTTP/1.1 200 OK").toList, [104, 105]⟩

/-! ## Support lemmas: trimming and hexadecimal rendering -/

lemma dropWhile_eq_self_of_forall {α : Type} (p : α → Bool) :
    ∀ l : List α, (∀ a ∈ l, p a = false) → l.dropWhile p = l := by
  intro l h
  cases l with
  | nil => rfl
  | cons a t => simp [List.dropWhile_cons, h a (List.mem_cons_self a t)]

lemma mem_of_head?_eq {α : Type} : ∀ (l : List α) (a : α), l.head? = some a → a ∈ l := by
  intro l a h
  cases l with
  | nil => simp at h
  | cons b t =>
    simp only [List.head?_cons, Option.some.injEq] at h
    subst h
    exact List.mem_cons_self _ _

lemma rsTrim_eq_self {s : Str} (h : ∀ c ∈ s, rustIsWhitespace c = false) : rsTrim s = s := by
  unfold rsTrim
  rw [dropWhile_eq_self_of_forall _ _ h, dropWhile_eq_self_of_forall, List.reverse_reverse]
  intro a ha
  exact h a (by simpa using ha)

lemma hexChar_spec (d : Nat) (h : d < 16) :
    (hexChar d).toNat < 128 ∧ (hexChar d).toNat ≠ 13 ∧ rustIsWhitespace (hexChar d) = false ∧
    hexDigitVal (hexChar d) = some d ∧ hexChar d ≠ '+' := by
  interval_cases d <;> exact ⟨by decide, by decide, by decide, by decide, by decide⟩

lemma toHexAux_irrel : ∀ n f1 f2, n ≤ f1 → n ≤ f2 → toHexAux f1 n = toHexAux f2 n := by
  intro n
  induction n using Nat.strong_induction_on with
  | _ n ih =>
    intro f1 f2 h1 h2
    by_cases h16 : n < 16
    · rw [toHexAux.eq_def, if_pos h16]
      rw [toHexAux.eq_def, if_pos h16]
    · obtain ⟨a, rfl⟩ : ∃ a, f1 = a + 1 := ⟨f1 - 1, by omega⟩
      obtain ⟨b, rfl⟩ : ∃ b, f2 = b + 1 := ⟨f2 - 1, by omega⟩
      rw [toHexAux.eq_def, if_neg h16]
      conv_rhs => rw [toHexAux.eq_def, if_neg h16]
      show toHexAux a (n / 16) ++ [hexChar (n % 16)] = toHexAux b (n / 16) ++ [hexChar (n % 16)]
      have hdiv : n / 16 < n := Nat.div_lt_self (by omega) (by omega)
      rw [ih (n / 16) hdiv a b (by omega) (by omega)]

lemma toHex_lt (n : Nat) (h : n < 16) : toHex n = [hexChar n] := by
  rw [toHex, toHexAux.eq_def, if_pos h]

lemma toHex_ge (n : Nat) (h : ¬ n < 16) : toHex n = toHex (n / 16) ++ [hexChar (n % 16)] := by
  obtain ⟨m, rfl⟩ : ∃ m, n = m + 1 := ⟨n - 1, by omega⟩
  rw [toHex, toHexAux.eq_def, if_neg h]
  show toHexAux m ((m + 1) / 16) ++ [hexChar ((m + 1) % 16)] = _
  have hdiv : (m + 1) / 16 < m + 1 := Nat.div_lt_self (by omega) (by omega)
  rw [toHexAux_irrel ((m + 1) / 16) m ((m + 1) / 16) (by omega) (le_refl _)]
  rfl

lemma toHex_ne_nil (n : Nat) : toHex n ≠ [] := by
  by_cases h16 : n < 16
  · rw [toHex_lt n h16]
    simp
  · rw [toHex_ge n h16]
    simp

lemma toHex_chars (n : Nat) : ∀ c ∈ toHex n, ∃ d, d < 16 ∧ c = hexChar d := by
  induction n using Nat.strong_induction_on with
  | _ n ih =>
    by_cases h16 : n < 16
    · rw [toHex_lt n h16]
      intro c hc
      simp only [List.mem_singleton] at hc
      exact ⟨n, by omega, hc⟩
    · rw [toHex_ge n h16]
      intro c hc
      rcases List.mem_append.mp hc with h1 | h2
      · exact ih (n / 16) (Nat.div_lt_self (by omega) (by omega)) c h1
      · simp only [List.mem_singleton] at h2
        exact ⟨n % 16, Nat.mod_lt _ (by omega), h2⟩

lemma hexValAux_append (s t : Str) :
    ∀ acc, hexValAux acc (s ++ t) =
      match hexValAux acc s with
      | some v => hexValAux v t
      | none => none := by
  induction s with
  | nil => intro acc; rfl
  | cons c r ih =>
    intro acc
    simp only [List.cons_append, hexValAux]
    cases hexDigitVal c with
    | none => rfl
    | some d => exact ih _

lemma hexValAux_toHex (n : Nat) : ∀ acc, hexValAux acc (toHex n) = some (acc * 16 ^ (toHex n).length + n) := by
  induction n using Nat.strong_induction_on with
  | _ n ih =>
    intro acc
    by_cases h : n < 16
    · rw [toHex_lt n h]
      simp [hexValAux, (hexChar_spec n h).2.2.2.1]
    · rw [toHex_ge n h]
      rw [hexValAux_append]
      rw [ih (n / 16) (Nat.div_lt_self (by omega) (by omega)) acc]
      have hm : n % 16 < 16 := Nat.mod_lt _ (by omega)
      simp only [hexValAux, (hexChar_spec _ hm).2.2.2.1, List.length_append,
        List.length_singleton]
      congr 1
      have hpow : 16 ^ ((toHex (n / 16)).length + 1) = 16 ^ (toHex (n / 16)).length * 16 :=
        pow_succ 16 _
      rw [hpow]
      have := Nat.div_add_mod n 16
      ring_nf
      omega

lemma toHex_head_ne_plus (n : Nat) : (toHex n).head? ≠ some '+' := by
  cases h : (toHex n).head? with
  | none => simp
  | some c =>
    have hc : c ∈ toHex n := mem_of_head?_eq (toHex n) c h
    obtain ⟨d, hd, rfl⟩ := toHex_chars n c hc
    simp only [ne_eq, Option.some.injEq]
    exact (hexChar_spec d hd).2.2.2.2

lemma parseHexUsize_toHex (n : Nat) (h : n < 2 ^ 64) : parseHexUsize (toHex n) = some n := by
  unfold parseHexUsize
  rw [if_neg (toHex_head_ne_plus n)]
  rw [if_neg (by simpa [List.isEmpty_iff] using toHex_ne_nil n)]
  rw [hexValAux_toHex n 0]
  simp only [Nat.zero_mul, Nat.zero_add]
  rw [if_pos h]

lemma rsTrim_toHex (n : Nat) : rsTrim (toHex n) = toHex n := by
  apply rsTrim_eq_self
  intro c hc
  obtain ⟨d, hd, rfl⟩ := toHex_chars n c hc
  exact (hexChar_spec d hd).2.2.1

/-! ## Support lemmas: UTF-8 on ASCII, CRLF search -/

lemma utf8DecodeAux_ascii : ∀ (l : List Nat) (fuel : Nat), l.length ≤ fuel →
    (∀ b ∈ l, b < 0x80) → utf8DecodeAux fuel l = some (l.map Char.ofNat) := by
  intro l
  induction l with
  | nil => intro fuel _ _; cases fuel <;> rfl
  | cons b rest ih =>
    intro fuel hfuel h
    have hb : b < 0x80 := h b (List.mem_cons_self b rest)
    obtain ⟨f, rfl⟩ : ∃ f, fuel = f + 1 := ⟨fuel - 1, by simp at hfuel; omega⟩
    show (if b < 0x80 then (utf8DecodeAux f rest).map (fun s => Char.ofNat b :: s) else _) = _
    rw [if_pos hb, ih f (by simp at hfuel; omega) (fun x hx => h x (List.mem_cons_of_mem b hx))]
    rfl

lemma utf8Decode_ascii (l : List Nat) (h : ∀ b ∈ l, b < 0x80) :
    utf8Decode l = some (l.map Char.ofNat) :=
  utf8DecodeAux_ascii l l.length (le_refl _) h

lemma utf8Decode_strToBytes (s : Str) (h : ∀ c ∈ s, c.toNat < 0x80) :
    utf8Decode (strToBytes s) = some s := by
  unfold strToBytes
  rw [utf8Decode_ascii]
  · rw [List.map_map]
    have hid : (Char.ofNat ∘ Char.toNat) = id := funext (fun c => Char.ofNat_toNat c)
    rw [hid, List.map_id]
  · intro b hb
    obtain ⟨c, hc, rfl⟩ := List.mem_map.mp hb
    exact h c hc

lemma strToBytes_toHex_lt128 (n : Nat) : ∀ b ∈ strToBytes (toHex n), b < 0x80 := by
  intro b hb
  obtain ⟨c, hc, rfl⟩ := List.mem_map.mp hb
  obtain ⟨d, hd, rfl⟩ := toHex_chars n c hc
  have := (hexChar_spec d hd).1
  omega

lemma strToBytes_toHex_ne13 (n : Nat) : ∀ b ∈ strToBytes (toHex n), b ≠ 13 := by
  intro b hb
  obtain ⟨c, hc, rfl⟩ := List.mem_map.mp hb
  obtain ⟨d, hd, rfl⟩ := toHex_chars n c hc
  exact (hexChar_spec d hd).2.1

lemma findCRLF_append (xs rest : List Nat) (h : ∀ b ∈ xs, b ≠ 13) :
    findCRLF (xs ++ 13 :: 10 :: rest) = some xs.length := by
  induction xs with
  | nil => simp [findCRLF]
  | cons a t ih =>
    have ha : a ≠ 13 := h a (List.mem_cons_self a t)
    simp only [List.cons_append, findCRLF]
    rw [if_neg (by simp [ha])]
    rw [List.append_eq, ih (fun x hx => h x (List.mem_cons_of_mem a hx))]
    simp

/-! ## Support lemmas: the chunked decoder on encoded streams -/

lemma parseChunkedAux_step (fuel : Nat) (data : List Nat) (h : data ≠ []) :
    parseChunkedAux (fuel + 1) data =
      match findCRLF data with
      | none => none
      | some lineEnd =>
        match utf8Decode (data.take lineEnd) with
        | none => none
        | some sizeStr =>
          match parseHexUsize (rsTrim sizeStr) with
          | none => none
          | some chunkSize =>
            let body := data.drop (lineEnd + 2)
            if chunkSize = 0 then some []
            else if body.length < chunkSize then none
            else
              match parseChunkedAux fuel (body.drop (chunkSize + 2)) with
              | none => none
              | some tail => some (body.take chunkSize ++ tail) := by
  cases data with
  | nil => exact absurd rfl h
  | cons b rest => rfl

lemma encodeChunk_length_pos (c : List Nat) : 0 < (encodeChunk c).length := by
  unfold encodeChunk
  simp only [List.length_append, List.length_cons, List.length_nil]
  omega

lemma parseChunkedAux_encodeChunk (fuel : Nat) (c R : List Nat) (hc : c ≠ [])
    (hlen : c.length < 2 ^ 64) :
    parseChunkedAux (fuel + 1) (encodeChunk c ++ R) =
      (parseChunkedAux fuel R).map (fun tail => c ++ tail) := by
  have hsplit : encodeChunk c ++ R =
      strToBytes (toHex c.length) ++ 13 :: 10 :: (c ++ 13 :: 10 :: R) := by
    unfold encodeChunk
    simp
  rw [hsplit]
  have hne : strToBytes (toHex c.length) ++ 13 :: 10 :: (c ++ 13 :: 10 :: R) ≠ [] := by
    simp
  rw [parseChunkedAux_step _ _ hne]
  have hutf : utf8Decode (strToBytes (toHex c.length)) = some (toHex c.length) := by
    apply utf8Decode_strToBytes
    intro ch hch
    obtain ⟨d, hd, rfl⟩ := toHex_chars c.length ch hch
    exact (hexChar_spec d hd).1
  have hdrop : (strToBytes (toHex c.length) ++ 13 :: 10 :: (c ++ 13 :: 10 :: R)).drop
      ((strToBytes (toHex c.length)).length + 2) = c ++ 13 :: 10 :: R := by
    have h1 : strToBytes (toHex c.length) ++ 13 :: 10 :: (c ++ 13 :: 10 :: R) =
        (strToBytes (toHex c.length) ++ [13, 10]) ++ (c ++ 13 :: 10 :: R) := by simp
    have h2 : (strToBytes (toHex c.length)).length + 2 =
        (strToBytes (toHex c.length) ++ [13, 10]).length := by simp
    rw [h1, h2]
    exact List.drop_left _ _
  have hc0 : ¬ (c.length = 0) := by simpa [List.length_eq_zero] using hc
  have hblen : (c ++ 13 :: 10 :: R).length = c.length + 2 + R.length := by
    simp only [List.length_append, List.length_cons]
    omega
  have hlt : ¬ ((c ++ 13 :: 10 :: R).length < c.length) := by omega
  have htake2 : (c ++ 13 :: 10 :: R).take c.length = c := List.take_left _ _
  have hdrop2 : (c ++ 13 :: 10 :: R).drop (c.length + 2) = R := by
    have h1 : c ++ 13 :: 10 :: R = (c ++ [13, 10]) ++ R := by simp
    have h2 : c.length + 2 = (c ++ [13, 10]).length := by simp
    rw [h1, h2]
    exact List.drop_left _ _
  simp only [findCRLF_append _ _ (strToBytes_toHex_ne13 c.length), List.take_left, hutf,
    rsTrim_toHex, parseHexUsize_toHex _ hlen, hdrop, hc0, hlt, if_false, htake2, hdrop2,
    if_neg, ite_false]
  cases parseChunkedAux fuel R <;> rfl

lemma parseChunkedAux_encodeChunked (chunks : List (List Nat))
    (h : ∀ c ∈ chunks, c ≠ [] ∧ c.length < 2 ^ 64) :
    ∀ fuel, (encodeChunked chunks).length ≤ fuel →
      parseChunkedAux fuel (encodeChunked chunks) = some chunks.flatten := by
  induction chunks with
  | nil =>
    intro fuel hfuel
    have h5 : (encodeChunked []).length = 5 := by decide
    rw [h5] at hfuel
    obtain ⟨f, rfl⟩ : ∃ f, fuel = f + 1 := ⟨fuel - 1, by omega⟩
    have he : encodeChunked [] = [48, 13, 10, 13, 10] := by decide
    rw [he, parseChunkedAux_step _ _ (by simp)]
    have h1 : findCRLF [48, 13, 10, 13, 10] = some 1 := by decide
    have h2 : utf8Decode [48] = some [Char.ofNat 48] := by decide
    have h3 : parseHexUsize (rsTrim [Char.ofNat 48]) = some 0 := by decide
    simp [h1, h2, h3]
  | cons c cs ih =>
    intro fuel hfuel
    have hcons : encodeChunked (c :: cs) = encodeChunk c ++ encodeChunked cs := by
      unfold encodeChunked
      simp
    rw [hcons] at hfuel ⊢
    have hpos := encodeChunk_length_pos c
    have hlen : (encodeChunk c ++ encodeChunked cs).length =
        (encodeChunk c).length + (encodeChunked cs).length := by simp
    obtain ⟨f, rfl⟩ : ∃ f, fuel = f + 1 := ⟨fuel - 1, by omega⟩
    obtain ⟨hc1, hc2⟩ := h c (List.mem_cons_self c cs)
    rw [parseChunkedAux_encodeChunk f c _ hc1 hc2]
    rw [ih (fun x hx => h x (List.mem_cons_of_mem c hx)) f (by omega)]
    simp

lemma parseChunkedAux_truncated (s : Nat) (hs : s < 2 ^ 64) (data : List Nat)
    (hd : data.length < s) :
    ∀ (pre : List (List Nat)), (∀ c ∈ pre, c ≠ [] ∧ c.length < 2 ^ 64) →
    ∀ fuel,
      ((pre.map encodeChunk).flatten ++ (strToBytes (toHex s) ++ 13 :: 10 :: data)).length ≤ fuel →
      parseChunkedAux fuel
        ((pre.map encodeChunk).flatten ++ (strToBytes (toHex s) ++ 13 :: 10 :: data)) = none := by
  intro pre
  induction pre with
  | nil =>
    intro _ fuel hfuel
    simp only [List.map_nil, List.flatten_nil, List.nil_append] at hfuel ⊢
    have hgt : 0 < (strToBytes (toHex s) ++ 13 :: 10 :: data).length := by simp
    obtain ⟨f, rfl⟩ : ∃ f, fuel = f + 1 := ⟨fuel - 1, by omega⟩
    rw [parseChunkedAux_step _ _ (by simp)]
    have hutf : utf8Decode (strToBytes (toHex s)) = some (toHex s) := by
      apply utf8Decode_strToBytes
      intro ch hch
      obtain ⟨d, hd2, rfl⟩ := toHex_chars s ch hch
      exact (hexChar_spec d hd2).1
    have hdrop : (strToBytes (toHex s) ++ 13 :: 10 :: data).drop
        ((strToBytes (toHex s)).length + 2) = data := by
      have h1 : strToBytes (toHex s) ++ 13 :: 10 :: data =
          (strToBytes (toHex s) ++ [13, 10]) ++ data := by simp
      have h2 : (strToBytes (toHex s)).length + 2 = (strToBytes (toHex s) ++ [13, 10]).length := by
        simp
      rw [h1, h2]
      exact List.drop_left _ _
    have hns : ¬ (s = 0) := by omega
    simp only [findCRLF_append _ _ (strToBytes_toHex_ne13 s), List.take_left, hutf,
      rsTrim_toHex, parseHexUsize_toHex _ hs, hdrop, hns, if_false, ite_false, if_pos hd]
  | cons c cs ih =>
    intro h fuel hfuel
    simp only [List.map_cons, List.flatten_cons, List.append_assoc] at hfuel ⊢
    have hpos := encodeChunk_length_pos c
    obtain ⟨f, rfl⟩ : ∃ f, fuel = f + 1 := ⟨fuel - 1, by
      simp only [List.length_append] at hfuel
      omega⟩
    obtain ⟨hc1, hc2⟩ := h c (List.mem_cons_self c cs)
    have := parseChunkedAux_encodeChunk f c
      ((cs.map encodeChunk).flatten ++ (strToBytes (toHex s) ++ 13 :: 10 :: data)) hc1 hc2
    simp only [List.append_assoc] at this
    rw [this]
    rw [ih (fun x hx => h x (List.mem_cons_of_mem c hx)) f (by
      simp only [List.length_append] at hfuel ⊢
      omega)]
    rfl

/-! ## Claim C3 -/

/-- C3: for every byte sequence b, encoding b as a valid HTTP/1.1 chunked
stream (any split of b into non-empty chunks, each size line followed by
CRLF, payloads followed by CRLF, terminated by a zero-size chunk) and then
applying parse_chunked_body yields exactly b; and a stream whose declared
chunk size exceeds the bytes remaining after its size line (after any
valid prefix of encoded chunks) makes parse_chunked_body fail, never
return a shortened result. -/
theorem C3_chunked_roundtrip :
    (∀ chunks : List (List Nat), (∀ c ∈ chunks, c ≠ [] ∧ c.length < 2 ^ 64) →
      parse_chunked_body (encodeChunked chunks) = some chunks.flatten)
    ∧ (∀ (pre : List (List Nat)) (s : Nat) (data : List Nat),
        (∀ c ∈ pre, c ≠ [] ∧ c.length < 2 ^ 64) → s < 2 ^ 64 → data.length < s →
        parse_chunked_body
          ((pre.map encodeChunk).flatten ++ (strToBytes (toHex s) ++ 13 :: 10 :: data)) = none) := by
  constructor
  · intro chunks h
    exact parseChunkedAux_encodeChunked chunks h _ (le_refl _)
  · intro pre s data hpre hs hd
    exact parseChunkedAux_truncated s hs data hd pre hpre _ (le_refl _)

/-- C3 witness: a concrete two-chunk stream round-trips, and a concrete
truncated stream (declared size 5, two bytes remaining) fails. -/
theorem C3_chunked_roundtrip_witness :
    parse_chunked_body (encodeChunked [[1, 2], [3]]) = some [1, 2, 3] ∧
    parse_chunked_body (strToBytes (toHex 5) ++ 13 :: 10 :: [7, 7]) = none := by
  constructor
  · have h := C3_chunked_roundtrip.1 [[1, 2], [3]] (by decide)
    simpa using h
  · have h := C3_chunked_roundtrip.2 [] 5 [7, 7] (by decide) (by decide) (by decide)
    simpa using h

/-! ## Step lemmas for the download_file loop -/

lemma dlLoop_budget (maxR : Nat) (d : Str) (script : List RawResponse) (url : Str) (red : Nat)
    (h : maxR ≤ red) :
    dlLoop maxR d script url red = (.err (("Too many redirects").toList), []) := by
  rw [dlLoop.eq_def, if_pos h]

lemma dlLoop_parse_none (maxR : Nat) (d : Str) (script : List RawResponse) (url : Str) (red : Nat)
    (hred : red < maxR) (hp : parseUrl url = none) :
    dlLoop maxR d script url red = (.err (("Failed to parse URL").toList), [Event.sleepRate]) := by
  rw [dlLoop.eq_def, if_neg (by omega)]
  simp only [hp]

lemma dlLoop_scheme (maxR : Nat) (d : Str) (script : List RawResponse) (url : Str) (red : Nat)
    (u : UrlParts) (hred : red < maxR) (hp : parseUrl url = some u)
    (hs : u.scheme ≠ ("https").toList) :
    dlLoop maxR d script url red =
      (.err (("Only HTTPS is supported in this implementation").toList),
        [Event.sleepRate, Event.connect url]) := by
  rw [dlLoop.eq_def, if_neg (by omega)]
  simp only [hp, if_pos hs]

lemma dlLoop_empty (maxR : Nat) (d : Str) (url : Str) (red : Nat) (u : UrlParts)
    (hred : red < maxR) (hp : parseUrl url = some u) (hs : u.scheme = ("https").toList) :
    dlLoop maxR d [] url red = (.outOfScript, [Event.sleepRate, Event.connect url]) := by
  rw [dlLoop.eq_def, if_neg (by omega)]
  simp only [hp, hs]
  rw [if_neg (by simp)]

lemma dlLoop_redirect (maxR : Nat) (d : Str) (r : RawResponse) (rest : List RawResponse)
    (url : Str) (red : Nat) (u : UrlParts) (nu : Str)
    (hred : red < maxR) (hp : parseUrl url = some u) (hs : u.scheme = ("https").toList)
    (hi : interpretResponse u d r = .redirect nu) :
    dlLoop maxR d (r :: rest) url red =
      ((dlLoop maxR d rest nu (red + 1)).fst,
        Event.sleepRate :: Event.connect url :: (dlLoop maxR d rest nu (red + 1)).snd) := by
  rw [dlLoop.eq_def, if_neg (by omega)]
  simp only [hp, hs, hi]
  rw [if_neg (by simp)]

lemma dlLoop_retry (maxR : Nat) (d : Str) (r : RawResponse) (rest : List RawResponse)
    (url : Str) (red : Nat) (u : UrlParts) (n : Nat)
    (hred : red < maxR) (hp : parseUrl url = some u) (hs : u.scheme = ("https").toList)
    (hi : interpretResponse u d r = .retry n) :
    dlLoop maxR d (r :: rest) url red =
      ((dlLoop maxR d rest url red).fst,
        Event.sleepRate :: Event.connect url :: Event.sleepRetry n ::
          (dlLoop maxR d rest url red).snd) := by
  rw [dlLoop.eq_def, if_neg (by omega)]
  simp only [hp, hs, hi]
  rw [if_neg (by simp)]

lemma dlLoop_success (maxR : Nat) (d : Str) (r : RawResponse) (rest : List RawResponse)
    (url : Str) (red : Nat) (u : UrlParts) (fn : Str) (body : List Nat)
    (hred : red < maxR) (hp : parseUrl url = some u) (hs : u.scheme = ("https").toList)
    (hi : interpretResponse u d r = .success fn body) :
    dlLoop maxR d (r :: rest) url red =
      (.ok fn body, [Event.sleepRate, Event.connect url]) := by
  rw [dlLoop.eq_def, if_neg (by omega)]
  simp only [hp, hs, hi]
  rw [if_neg (by simp)]

lemma dlLoop_fail (maxR : Nat) (d : Str) (r : RawResponse) (rest : List RawResponse)
    (url : Str) (red : Nat) (u : UrlParts) (msg : Str)
    (hred : red < maxR) (hp : parseUrl url = some u) (hs : u.scheme = ("https").toList)
    (hi : interpretResponse u d r = .fail msg) :
    dlLoop maxR d (r :: rest) url red =
      (.err msg, [Event.sleepRate, Event.connect url]) := by
  rw [dlLoop.eq_def, if_neg (by omega)]
  simp only [hp, hs, hi]
  rw [if_neg (by simp)]

/-! ## Characterization of the response interpretation -/

lemma interpretResponse_redirect_eq (u : UrlParts) (d : Str) (r : RawResponse) (loc : Str)
    (h1 : hasRedirectStatus (statusLineOf r.headers) = true)
    (hloc : locationValue r.headers = some loc) :
    interpretResponse u d r = .redirect (resolveRedirect u loc) := by
  unfold interpretResponse
  simp only [h1, hloc, if_true]

lemma interpretResponse_retry_eq (u : UrlParts) (d : Str) (r : RawResponse)
    (h1 : hasRedirectStatus (statusLineOf r.headers) = false)
    (h2 : containsSub ((" 429 ").toList) (statusLineOf r.headers) = true) :
    interpretResponse u d r = .retry (retryAfterOf r.headers) := by
  unfold interpretResponse
  simp only [h1, h2, if_true, if_false, Bool.false_eq_true]

lemma interpretResponse_success_eq (u : UrlParts) (d : Str) (r : RawResponse) (body : List Nat)
    (h1 : hasRedirectStatus (statusLineOf r.headers) = false)
    (h2 : containsSub ((" 429 ").toList) (statusLineOf r.headers) = false)
    (h3 : (containsSub (("200 OK").toList) r.headers ||
           containsSub (("HTTP/2 200").toList) r.headers) = true)
    (hdec : decode_body r.headers r.body = some body) :
    interpretResponse u d r = .success (resolveFilename r.headers u d) body := by
  unfold interpretResponse
  simp only [h1, h2, h3, hdec, Bool.not_true, if_false, Bool.false_eq_true]

lemma interpretResponse_chunkfail_eq (u : UrlParts) (d : Str) (r : RawResponse)
    (h1 : hasRedirectStatus (statusLineOf r.headers) = false)
    (h2 : containsSub ((" 429 ").toList) (statusLineOf r.headers) = false)
    (h3 : (containsSub (("200 OK").toList) r.headers ||
           containsSub (("HTTP/2 200").toList) r.headers) = true)
    (hdec : decode_body r.headers r.body = none) :
    interpretResponse u d r = .fail (("Invalid chunked body").toList) := by
  unfold interpretResponse
  simp only [h1, h2, h3, hdec, Bool.not_true, if_false, Bool.false_eq_true]

lemma interpretResponse_httpfail_eq (u : UrlParts) (d : Str) (r : RawResponse)
    (h1 : hasRedirectStatus (statusLineOf r.headers) = false)
    (h2 : containsSub ((" 429 ").toList) (statusLineOf r.headers) = false)
    (h3 : (containsSub (("200 OK").toList) r.headers ||
           containsSub (("HTTP/2 200").toList) r.headers) = false) :
    interpretResponse u d r = .fail ((("HTTP request failed: ").toList) ++ statusLineOf r.headers) := by
  unfold interpretResponse
  simp only [h1, h2, h3, Bool.not_false, if_true, if_false, Bool.false_eq_true]

/-! ## Trace properties of the loop -/

lemma connectsPreceded_pair (url : Str) (t : List Event) :
    connectsPreceded (Event.sleepRate :: Event.connect url :: t) = connectsPreceded t := rfl

lemma connectsPreceded_retry3 (url : Str) (n : Nat) (t : List Event) :
    connectsPreceded (Event.sleepRate :: Event.connect url :: Event.sleepRetry n :: t) =
      connectsPreceded t := rfl

lemma connectsPreceded_dlLoop (maxR : Nat) (d : Str) :
    ∀ (script : List RawResponse) (url : Str) (red : Nat),
      connectsPreceded (dlLoop maxR d script url red).snd = true := by
  intro script
  induction script with
  | nil =>
    intro url red
    by_cases hred : maxR ≤ red
    · rw [dlLoop_budget maxR d _ url red hred]
      rfl
    · cases hp : parseUrl url with
      | none =>
        rw [dlLoop_parse_none maxR d _ url red (by omega) hp]
        rfl
      | some u =>
        by_cases hs : u.scheme = ("https").toList
        · rw [dlLoop_empty maxR d url red u (by omega) hp hs]
          rfl
        · rw [dlLoop_scheme maxR d _ url red u (by omega) hp hs]
          rfl
  | cons r rest ih =>
    intro url red
    by_cases hred : maxR ≤ red
    · rw [dlLoop_budget maxR d _ url red hred]
      rfl
    · cases hp : parseUrl url with
      | none =>
        rw [dlLoop_parse_none maxR d _ url red (by omega) hp]
        rfl
      | some u =>
        by_cases hs : u.scheme = ("https").toList
        · cases hi : interpretResponse u d r with
          | redirect nu =>
            rw [dlLoop_redirect maxR d r rest url red u nu (by omega) hp hs hi]
            show connectsPreceded (Event.sleepRate :: Event.connect url ::
              (dlLoop maxR d rest nu (red + 1)).snd) = true
            rw [connectsPreceded_pair]
            exact ih nu (red + 1)
          | retry n =>
            rw [dlLoop_retry maxR d r rest url red u n (by omega) hp hs hi]
            show connectsPreceded (Event.sleepRate :: Event.connect url :: Event.sleepRetry n ::
              (dlLoop maxR d rest url red).snd) = true
            rw [connectsPreceded_retry3]
            exact ih url red
          | success fn body =>
            rw [dlLoop_success maxR d r rest url red u fn body (by omega) hp hs hi]
            rfl
          | fail msg =>
            rw [dlLoop_fail maxR d r rest url red u msg (by omega) hp hs hi]
            rfl
        · rw [dlLoop_scheme maxR d _ url red u (by omega) hp hs]
          rfl

lemma countSleepRate_sleep (t : List Event) :
    countSleepRate (Event.sleepRate :: t) = countSleepRate t + 1 := by
  simp [countSleepRate, List.countP_cons]

lemma countSleepRate_connect (u : Str) (t : List Event) :
    countSleepRate (Event.connect u :: t) = countSleepRate t := by
  simp [countSleepRate, List.countP_cons]

lemma countSleepRate_retry (n : Nat) (t : List Event) :
    countSleepRate (Event.sleepRetry n :: t) = countSleepRate t := by
  simp [countSleepRate, List.countP_cons]

lemma countConnect_sleep (t : List Event) :
    countConnect (Event.sleepRate :: t) = countConnect t := by
  simp [countConnect, List.countP_cons]

lemma countConnect_connect (u : Str) (t : List Event) :
    countConnect (Event.connect u :: t) = countConnect t + 1 := by
  simp [countConnect, List.countP_cons]

lemma countConnect_retry (n : Nat) (t : List Event) :
    countConnect (Event.sleepRetry n :: t) = countConnect t := by
  simp [countConnect, List.countP_cons]

lemma dlLoop_chain (maxR : Nat) (d : Str) :
    ∀ (rs tail : List RawResponse) (url : Str) (red : Nat),
      chainOk d rs url = true → red + rs.length ≤ maxR →
      (dlLoop maxR d (rs ++ tail) url red).fst =
        (dlLoop maxR d tail (chainFinalUrl d rs url) (red + rs.length)).fst ∧
      countSleepRate (dlLoop maxR d (rs ++ tail) url red).snd =
        rs.length +
          countSleepRate (dlLoop maxR d tail (chainFinalUrl d rs url) (red + rs.length)).snd ∧
      countConnect (dlLoop maxR d (rs ++ tail) url red).snd =
        rs.length +
          countConnect (dlLoop maxR d tail (chainFinalUrl d rs url) (red + rs.length)).snd := by
  intro rs
  induction rs with
  | nil =>
    intro tail url red _ _
    simp [chainFinalUrl]
  | cons r rest ih =>
    intro tail url red hchain hle
    rw [chainOk] at hchain
    cases hp : parseUrl url with
    | none =>
      simp only [hp] at hchain
      exact absurd hchain (by simp)
    | some u =>
      simp only [hp] at hchain
      by_cases hs : u.scheme = ("https").toList
      · rw [if_pos hs] at hchain
        cases hi : interpretResponse u d r with
        | redirect nu =>
          simp only [hi] at hchain
          have hred : red < maxR := by simp at hle; omega
          have hfin : chainFinalUrl d (r :: rest) url = chainFinalUrl d rest nu := by
            rw [chainFinalUrl]
            simp only [hp, hi]
          rw [hfin]
          have hcons : (r :: rest) ++ tail = r :: (rest ++ tail) := rfl
          rw [hcons, dlLoop_redirect maxR d r (rest ++ tail) url red u nu hred hp hs hi]
          obtain ⟨ih1, ih2, ih3⟩ := ih tail nu (red + 1) hchain (by simp at hle ⊢; omega)
          have hlen2 : red + (r :: rest).length = red + 1 + rest.length := by simp; omega
          refine ⟨?_, ?_, ?_⟩
          · show (dlLoop maxR d (rest ++ tail) nu (red + 1)).fst = _
            rw [ih1, hlen2]
          · show countSleepRate (Event.sleepRate :: Event.connect url ::
              (dlLoop maxR d (rest ++ tail) nu (red + 1)).snd) = _
            rw [countSleepRate_sleep, countSleepRate_connect, ih2, hlen2]
            simp only [List.length_cons]
            omega
          · show countConnect (Event.sleepRate :: Event.connect url ::
              (dlLoop maxR d (rest ++ tail) nu (red + 1)).snd) = _
            rw [countConnect_sleep, countConnect_connect, ih3, hlen2]
            simp only [List.length_cons]
            omega
        | retry n =>
          simp only [hi] at hchain
          exact absurd hchain (by simp)
        | success fn body =>
          simp only [hi] at hchain
          exact absurd hchain (by simp)
        | fail msg =>
          simp only [hi] at hchain
          exact absurd hchain (by simp)
      · rw [if_neg hs] at hchain
        simp at hchain

lemma bool_not_true {b : Bool} (h : b = false) : ¬ (b = true) := by
  rw [h]
  simp

lemma countSleepRate_nil : countSleepRate [] = 0 := rfl

lemma countConnect_nil : countConnect [] = 0 := rfl

lemma interpretResponse_terminal (u : UrlParts) (d : Str) (r : RawResponse)
    (h1 : hasRedirectStatus (statusLineOf r.headers) = false)
    (h2 : containsSub ((" 429 ").toList) (statusLineOf r.headers) = false) :
    (∃ fn body, interpretResponse u d r = .success fn body) ∨
    (∃ msg, interpretResponse u d r = .fail msg) := by
  unfold interpretResponse
  simp only [h1, h2, Bool.false_eq_true, if_false]
  split
  · exact Or.inr ⟨_, rfl⟩
  · split
    · exact Or.inr ⟨_, rfl⟩
    · exact Or.inl ⟨_, _, rfl⟩

/-! ## Claim C10 -/

/-- C10: with max-redirects configured to zero, download_file fails with
the Too many redirects error before any rate-limit sleep, connection
attempt or request: for every URL and every scripted network the result
is that error and the effect trace is empty. -/
theorem C10_zero_budget_rejects_immediately (d url : Str) (script : List RawResponse) :
    download_file 0 d url script = (.err (("Too many redirects").toList), []) := by
  unfold download_file
  exact dlLoop_budget 0 d script url 0 (le_refl 0)

/-! ## Claim C4 -/

/-- C4: with max-redirects two, a chain of three redirect responses makes
download_file fail with the Too many redirects error after at most three
connection attempts; moreover the loop errs out immediately whenever the
redirect count has reached the configured maximum, and each followed
redirect continues with the resolved URL and the count increased by
exactly one. -/
theorem C4_redirect_budget :
    (∀ (d url : Str) (r1 r2 r3 : RawResponse) (u1 u2 : UrlParts) (nu1 nu2 : Str),
      parseUrl url = some u1 → u1.scheme = ("https").toList →
      interpretResponse u1 d r1 = .redirect nu1 →
      parseUrl nu1 = some u2 → u2.scheme = ("https").toList →
      interpretResponse u2 d r2 = .redirect nu2 →
      (download_file 2 d url [r1, r2, r3]).fst = .err (("Too many redirects").toList) ∧
      countConnect (download_file 2 d url [r1, r2, r3]).snd ≤ 3)
    ∧ (∀ (maxR : Nat) (d : Str) (script : List RawResponse) (url : Str) (red : Nat),
        maxR ≤ red → dlLoop maxR d script url red = (.err (("Too many redirects").toList), []))
    ∧ (∀ (maxR : Nat) (d : Str) (r : RawResponse) (rest : List RawResponse) (url : Str)
        (red : Nat) (u : UrlParts) (nu : Str),
        red < maxR → parseUrl url = some u → u.scheme = ("https").toList →
        interpretResponse u d r = .redirect nu →
        dlLoop maxR d (r :: rest) url red =
          ((dlLoop maxR d rest nu (red + 1)).fst,
            Event.sleepRate :: Event.connect url :: (dlLoop maxR d rest nu (red + 1)).snd)) := by
  refine ⟨?_, ?_, ?_⟩
  · intro d url r1 r2 r3 u1 u2 nu1 nu2 hp1 hs1 hi1 hp2 hs2 hi2
    have e2 : dlLoop 2 d [r3] nu2 2 = (.err (("Too many redirects").toList), []) :=
      dlLoop_budget 2 d [r3] nu2 2 (le_refl 2)
    have e1 : dlLoop 2 d [r2, r3] nu1 1 =
        ((dlLoop 2 d [r3] nu2 2).fst,
          Event.sleepRate :: Event.connect nu1 :: (dlLoop 2 d [r3] nu2 2).snd) :=
      dlLoop_redirect 2 d r2 [r3] nu1 1 u2 nu2 (by omega) hp2 hs2 hi2
    have e0 : dlLoop 2 d [r1, r2, r3] url 0 =
        ((dlLoop 2 d [r2, r3] nu1 1).fst,
          Event.sleepRate :: Event.connect url :: (dlLoop 2 d [r2, r3] nu1 1).snd) :=
      dlLoop_redirect 2 d r1 [r2, r3] url 0 u1 nu1 (by omega) hp1 hs1 hi1
    unfold download_file
    rw [e0, e1, e2]
    constructor
    · rfl
    · show countConnect (Event.sleepRate :: Event.connect url ::
        Event.sleepRate :: Event.connect nu1 :: []) ≤ 3
      rw [countConnect_sleep, countConnect_connect, countConnect_sleep, countConnect_connect,
        countConnect_nil]
      omega
  · exact fun maxR d script url red h => dlLoop_budget maxR d script url red h
  · exact fun maxR d r rest url red u nu hred hp hs hi =>
      dlLoop_redirect maxR d r rest url red u nu hred hp hs hi

/-- C4 witness: a concrete chain of three redirect responses under a
budget of two fails with the Too many redirects error after at most three
connection attempts. -/
theorem C4_redirect_budget_witness :
    (download_file 2 (("index.html").toList) urlEx [resp301, resp301, resp301]).fst =
      .err (("Too many redirects").toList) ∧
    countConnect (download_file 2 (("index.html").toList) urlEx
      [resp301, resp301, resp301]).snd ≤ 3 := by
  exact C4_redirect_budget.1 (("index.html").toList) urlEx resp301 resp301 resp301
    ⟨("https").toList, ("example.test").toList, ("/a").toList⟩
    ⟨("https").toList, ("example.test").toList, ("/b").toList⟩
    (("https://example.test/b").toList) (("https://example.test/b").toList)
    (by decide) (by decide) (by decide) (by decide) (by decide) (by decide)

/-! ## Claim C5 -/

/-- C5: a 429 response makes download_file sleep the Retry-After seconds
and retry the identical URL exactly once per 429 without touching the
redirect count; the wait is the Retry-After value when it parses as an
unsigned integer and sixty seconds when the header is absent or its value
does not parse as an integer. -/
theorem C5_rate_limited_retry :
    ∀ (maxR : Nat) (d url : Str) (red : Nat) (script : List RawResponse) (r : RawResponse)
      (u : UrlParts),
      red < maxR → parseUrl url = some u → u.scheme = ("https").toList →
      hasRedirectStatus (statusLineOf r.headers) = false →
      containsSub ((" 429 ").toList) (statusLineOf r.headers) = true →
      (dlLoop maxR d (r :: script) url red =
        ((dlLoop maxR d script url red).fst,
          Event.sleepRate :: Event.connect url :: Event.sleepRetry (retryAfterOf r.headers) ::
            (dlLoop maxR d script url red).snd))
      ∧ (∀ v n, retryAfterValue r.headers = some v → parseU64 v = some n →
          retryAfterOf r.headers = n)
      ∧ (retryAfterValue r.headers = none → retryAfterOf r.headers = 60)
      ∧ (∀ v, retryAfterValue r.headers = some v → parseU64 v = none →
          retryAfterOf r.headers = 60) := by
  intro maxR d url red script r u hred hp hs h1 h2
  refine ⟨?_, ?_, ?_, ?_⟩
  · exact dlLoop_retry maxR d r script url red u (retryAfterOf r.headers) hred hp hs
      (interpretResponse_retry_eq u d r h1 h2)
  · intro v n hv hn
    unfold retryAfterOf
    simp only [hv, hn]
  · intro hv
    unfold retryAfterOf
    simp only [hv]
  · intro v hv hn
    unfold retryAfterOf
    simp only [hv, hn]

/-- C5 witness: a concrete 429 response with Retry-After 3 makes the loop
sleep three seconds and retry the same URL with the same redirect count. -/
theorem C5_rate_limited_retry_witness :
    dlLoop 5 (("index.html").toList) [resp429] urlEx 0 =
      ((dlLoop 5 (("index.html").toList) [] urlEx 0).fst,
        Event.sleepRate :: Event.connect urlEx :: Event.sleepRetry 3 ::
          (dlLoop 5 (("index.html").toList) [] urlEx 0).snd) ∧
    retryAfterOf resp429.headers = 3 := by
  have h := C5_rate_limited_retry 5 (("index.html").toList) urlEx 0 [] resp429
    ⟨("https").toList, ("example.test").toList, ("/a").toList⟩
    (by omega) (by decide) (by decide) (by decide) (by decide)
  refine ⟨?_, ?_⟩
  · have h3 : retryAfterOf resp429.headers = 3 :=
      h.2.1 ((" 3").toList.drop 1) 3 (by decide) (by decide)
    rw [← h3]
    exact h.1
  · exact h.2.1 ((" 3").toList.drop 1) 3 (by decide) (by decide)

/-! ## Claim C7 -/

/-- C7: the rate-limit delay is slept before every connection attempt of
download_file (every connect event in the trace is immediately preceded by
a rate-limit sleep); a chain of N followed redirects ending in a final
non-redirect, non-429 request incurs exactly N+1 rate-limit sleeps and
N+1 connection attempts; and download_web_service sleeps the delay before
its single connection attempt. -/
theorem C7_rate_limit_before_every_connect :
    (∀ (maxR : Nat) (d url : Str) (script : List RawResponse),
      connectsPreceded (download_file maxR d url script).snd = true)
    ∧ (∀ (maxR : Nat) (d url : Str) (rs : List RawResponse) (final : RawResponse) (uf : UrlParts),
        chainOk d rs url = true → rs.length < maxR →
        parseUrl (chainFinalUrl d rs url) = some uf → uf.scheme = ("https").toList →
        hasRedirectStatus (statusLineOf final.headers) = false →
        containsSub ((" 429 ").toList) (statusLineOf final.headers) = false →
        countSleepRate (download_file maxR d url (rs ++ [final])).snd = rs.length + 1 ∧
        countConnect (download_file maxR d url (rs ++ [final])).snd = rs.length + 1)
    ∧ (∀ (url : Str) (resp : Option RawResponse) (u : UrlParts), parseUrl url = some u →
        (download_web_service url resp).snd = [Event.sleepRate, Event.connect url]) := by
  refine ⟨?_, ?_, ?_⟩
  · intro maxR d url script
    unfold download_file
    exact connectsPreceded_dlLoop maxR d script url 0
  · intro maxR d url rs final uf hchain hlt hpf hsf h5 h6
    unfold download_file
    obtain ⟨h1, h2, h3⟩ := dlLoop_chain maxR d rs [final] url 0 hchain (by omega)
    have hone : (dlLoop maxR d [final] (chainFinalUrl d rs url) (0 + rs.length)).snd =
        [Event.sleepRate, Event.connect (chainFinalUrl d rs url)] := by
      rcases interpretResponse_terminal uf d final h5 h6 with ⟨fn, body, hi⟩ | ⟨msg, hi⟩
      · rw [dlLoop_success maxR d final [] _ _ uf fn body (by omega) hpf hsf hi]
      · rw [dlLoop_fail maxR d final [] _ _ uf msg (by omega) hpf hsf hi]
    constructor
    · rw [h2, hone, countSleepRate_sleep, countSleepRate_connect, countSleepRate_nil]
    · rw [h3, hone, countConnect_sleep, countConnect_connect, countConnect_nil]
  · intro url resp u hp
    unfold download_web_service
    simp only [hp]
    cases resp with
    | none => rfl
    | some r =>
      dsimp only
      by_cases hs : u.scheme ≠ ("https").toList
      · rw [if_pos hs]
      · rw [if_neg hs]
        cases hh : (rsLines r.headers).head? with
        | none => rfl
        | some sl =>
          simp only [hh]
          by_cases hl : (splitWhitespace sl).length < 2
          · rw [if_pos hl]
          · rw [if_neg hl]
            cases hc : parseU16 ((splitWhitespace sl).getD 1 []) with
            | none => rfl
            | some code =>
              simp only [hc]
              by_cases hge : 400 ≤ code
              · rw [if_pos hge]
              · rw [if_neg hge]
                cases hd : decode_body r.headers r.body with
                | none => rfl
                | some body => simp only [hd]

/-- C7 witness: one followed redirect plus the final request give exactly
two rate-limit sleeps and two connection attempts. -/
theorem C7_rate_limit_before_every_connect_witness :
    countSleepRate (download_file 5 (("index.html").toList) urlEx [resp301, resp200]).snd = 2 ∧
    countConnect (download_file 5 (("index.html").toList) urlEx [resp301, resp200]).snd = 2 := by
  have h := C7_rate_limit_before_every_connect.2.1 5 (("index.html").toList) urlEx [resp301]
    resp200 ⟨("https").toList, ("example.test").toList, ("/b").toList⟩
    (by decide) (by decide) (by decide) (by decide) (by decide) (by decide)
  exact h

/-! ## Claim C6 -/

/-- C6: for a redirect followed from the current URL
https://a.example/dir/page, a Location beginning with http:// or https://
is used verbatim, a Location beginning with a slash is resolved against
scheme and host, and any other Location is resolved against the directory
of the current path. -/
theorem C6_location_resolution :
    ∀ (u : UrlParts) (loc : Str),
      parseUrl (("https://a.example/dir/page").toList) = some u →
      ((isPrefixOfB (("http://").toList) loc || isPrefixOfB (("https://").toList) loc) = true →
        resolveRedirect u loc = loc)
      ∧ (loc.head? = some '/' →
        (isPrefixOfB (("http://").toList) loc || isPrefixOfB (("https://").toList) loc) = false →
        resolveRedirect u loc = ("https://a.example").toList ++ loc)
      ∧ (loc.head? ≠ some '/' →
        (isPrefixOfB (("http://").toList) loc || isPrefixOfB (("https://").toList) loc) = false →
        resolveRedirect u loc = ("https://a.example/dir/").toList ++ loc) := by
  intro u loc hp
  have hval : parseUrl (("https://a.example/dir/page").toList) =
      some ⟨("https").toList, ("a.example").toList, ("/dir/page").toList⟩ := by decide
  rw [hval] at hp
  have hu : u = ⟨("https").toList, ("a.example").toList, ("/dir/page").toList⟩ :=
    (Option.some.inj hp).symm
  subst hu
  refine ⟨?_, ?_, ?_⟩
  · intro hcond
    unfold resolveRedirect
    rw [if_pos hcond]
  · intro hhead hcond
    unfold resolveRedirect
    rw [if_neg (bool_not_true hcond), if_pos hhead]
    rfl
  · intro hhead hcond
    unfold resolveRedirect
    rw [if_neg (bool_not_true hcond), if_neg hhead]
    rfl

/-- C6 witness: at the concrete base URL, Location y resolves to
https://a.example/dir/y. -/
theorem C6_location_resolution_witness :
    resolveRedirect ⟨("https").toList, ("a.example").toList, ("/dir/page").toList⟩
      (("y").toList) = ("https://a.example/dir/y").toList := by
  have h := (C6_location_resolution
    ⟨("https").toList, ("a.example").toList, ("/dir/page").toList⟩ (("y").toList)
    (by decide)).2.2 (by decide) (by decide)
  exact h.trans (by decide)

/-! ## Claim C2 -/

/-- C2 counterexample: a response with status 204 No Content, squarely in
the 2xx class, makes download_file fail with an HTTP-request-failed error
instead of terminating successfully. -/
theorem C2_2xx_counterexample :
    (download_file 5 (("index.html").toList) urlEx [resp204]).fst =
      .err (("HTTP request failed: HTTP/1.1 204 No Content").toList) := by decide

/-- C2 amended: download_file succeeds on a response exactly when the
header block contains the literal text 200 OK or HTTP/2 200 (so 204, 206,
or a 200 with another reason phrase all fail with an HTTP-request-failed
error carrying the status line); on success the returned body is decoded
through the chunked decoder exactly when the chunked transfer-encoding
marker is present in the lowercased headers, and is the raw body bytes
otherwise. -/
theorem C2_2xx_amended :
    ∀ (maxR : Nat) (d url : Str) (u : UrlParts) (r : RawResponse),
      1 ≤ maxR → parseUrl url = some u → u.scheme = ("https").toList →
      hasRedirectStatus (statusLineOf r.headers) = false →
      containsSub ((" 429 ").toList) (statusLineOf r.headers) = false →
      (((containsSub (("200 OK").toList) r.headers ||
          containsSub (("HTTP/2 200").toList) r.headers) = true →
        (∀ body, decode_body r.headers r.body = some body →
          (download_file maxR d url [r]).fst = .ok (resolveFilename r.headers u d) body)
        ∧ (decode_body r.headers r.body = none →
          (download_file maxR d url [r]).fst = .err (("Invalid chunked body").toList)))
      ∧ ((containsSub (("200 OK").toList) r.headers ||
          containsSub (("HTTP/2 200").toList) r.headers) = false →
          (download_file maxR d url [r]).fst =
            .err ((("HTTP request failed: ").toList) ++ statusLineOf r.headers))
      ∧ (isChunkedHeaders r.headers = false → decode_body r.headers r.body = some r.body)
      ∧ (isChunkedHeaders r.headers = true →
          decode_body r.headers r.body = parse_chunked_body r.body)) := by
  intro maxR d url u r hmax hp hs h1 h2
  refine ⟨?_, ?_, ?_, ?_⟩
  · intro h3
    constructor
    · intro body hdec
      unfold download_file
      rw [dlLoop_success maxR d r [] url 0 u (resolveFilename r.headers u d) body (by omega)
        hp hs (interpretResponse_success_eq u d r body h1 h2 h3 hdec)]
    · intro hdec
      unfold download_file
      rw [dlLoop_fail maxR d r [] url 0 u (("Invalid chunked body").toList) (by omega)
        hp hs (interpretResponse_chunkfail_eq u d r h1 h2 h3 hdec)]
  · intro h3
    unfold download_file
    rw [dlLoop_fail maxR d r [] url 0 u ((("HTTP request failed: ").toList) ++
      statusLineOf r.headers) (by omega) hp hs (interpretResponse_httpfail_eq u d r h1 h2 h3)]
  · intro hc
    unfold decode_body
    rw [if_neg (bool_not_true hc)]
  · intro hc
    unfold decode_body
    rw [if_pos hc]

/-- C2 witness: a concrete plain 200 OK response succeeds with the raw
body and the filename resolved from the URL. -/
theorem C2_2xx_amended_witness :
    (download_file 5 (("index.html").toList) urlEx [resp200]).fst =
      .ok (resolveFilename resp200.headers
        ⟨("https").toList, ("example.test").toList, ("/a").toList⟩ (("index.html").toList))
        [104, 105] := by
  have h := C2_2xx_amended 5 (("index.html").toList) urlEx
    ⟨("https").toList, ("example.test").toList, ("/a").toList⟩ resp200
    (by omega) (by decide) (by decide) (by decide) (by decide)
  exact (h.1 (by decide)).1 [104, 105] (by decide)

/-! ## Claim C8 -/

lemma extractFilenameLines_ne_nil : ∀ (lines : List Str) (f : Str),
    extractFilenameLines lines = some f → f ≠ [] := by
  intro lines
  induction lines with
  | nil =>
    intro f h
    simp [extractFilenameLines] at h
  | cons line rest ih =>
    intro f h
    rw [extractFilenameLines] at h
    split at h
    · split at h
      · split at h
        · exact ih f h
        · rename_i hne
          have hf := Option.some.inj h
          intro hnil
          apply hne
          rw [hf, hnil]
          rfl
      · exact ih f h
    · exact ih f h

/-- C8 counterexample: for the URL https://x.example/a/b/ with no header
filename, the claim picks the last non-empty segment b, but download_file
falls back to the configured default; and with an empty configured
default the resolved filename is the empty string. -/
theorem C8_filename_priority_counterexample :
    specClaimFilename respPlain200.headers
      ⟨("https").toList, ("x.example").toList, ("/a/b/").toList⟩ (("d.txt").toList) =
      ("b").toList ∧
    (download_file 5 (("d.txt").toList) urlSlash [respPlain200]).fst =
      .ok (("d.txt").toList) [104, 105] ∧
    ("d.txt").toList ≠ ("b").toList ∧
    (download_file 5 [] urlSlash [respPlain200]).fst = .ok [] [104, 105] := by decide

/-- C8 amended: the resolved filename of download_file is (1) the
header-derived filename when present (it is then never empty), else
(2) the final slash-separated segment of the URL path when that segment
is non-empty and not a lone slash, else (3) the configured default; the
result is non-empty whenever the configured default is non-empty. -/
theorem C8_filename_priority_amended :
    ∀ (headers : Str) (u : UrlParts) (d : Str),
      (∀ f, extract_filename_from_headers headers = some f →
        resolveFilename headers u d = f ∧ f ≠ [])
      ∧ (extract_filename_from_headers headers = none →
          ∀ seg, (splitOnChar '/' u.path).getLast? = some seg →
            (¬ seg.isEmpty = true → seg ≠ ['/'] → resolveFilename headers u d = seg)
            ∧ (seg.isEmpty = true ∨ seg = ['/'] → resolveFilename headers u d = d))
      ∧ (d ≠ [] → resolveFilename headers u d ≠ []) := by
  intro headers u d
  refine ⟨?_, ?_, ?_⟩
  · intro f hf
    refine ⟨?_, extractFilenameLines_ne_nil _ f hf⟩
    unfold resolveFilename
    simp only [hf]
  · intro hnone seg hseg
    constructor
    · intro h1 h2
      unfold resolveFilename
      simp only [hnone]
      unfold extract_filename_from_url
      rw [hseg]
      simp only [Option.getD_some]
      rw [if_neg (by simp [h2]; simpa using h1)]
    · intro hor
      unfold resolveFilename
      simp only [hnone]
      unfold extract_filename_from_url
      rw [hseg]
      simp only [Option.getD_some]
      rw [if_pos (by rcases hor with h | h <;> simp [h])]
  · intro hd
    cases hext : extract_filename_from_headers headers with
    | some f =>
      unfold resolveFilename
      simp only [hext]
      exact extractFilenameLines_ne_nil _ f hext
    | none =>
      unfold resolveFilename
      simp only [hext]
      unfold extract_filename_from_url
      cases hseg : (splitOnChar '/' u.path).getLast? with
      | none =>
        simp only [Option.getD_none]
        rw [if_neg (by decide)]
        decide
      | some seg =>
        simp only [Option.getD_some]
        split
        · exact hd
        · rename_i hcond
          intro hnil
          apply hcond
          rw [hnil]
          simp

/-- C8 witness: URL https://x.example/reports/out.csv with no
Content-Disposition resolves to out.csv. -/
theorem C8_filename_priority_amended_witness :
    resolveFilename respPlain200.headers
      ⟨("https").toList, ("x.example").toList, ("/reports/out.csv").toList⟩
      (("index.html").toList) = ("out.csv").toList := by
  have h := ((C8_filename_priority_amended respPlain200.headers
    ⟨("https").toList, ("x.example").toList, ("/reports/out.csv").toList⟩
    (("index.html").toList)).2.1 (by decide) (("out.csv").toList) (by decide)).1
    (by decide) (by decide)
  exact h

/-! ## Claim C9 -/

lemma mem_of_getLast?_eq {α : Type} : ∀ (l : List α) (a : α), l.getLast? = some a → a ∈ l := by
  intro l
  induction l with
  | nil => intro a h; simp at h
  | cons b t ih =>
    intro a h
    cases t with
    | nil =>
      simp at h
      simp [h]
    | cons c t2 =>
      rw [List.getLast?_cons_cons] at h
      exact List.mem_cons_of_mem b (ih a h)

lemma dropWhile_head_ne (p : Char → Bool) (l : Str)
    (h : ∀ a, l.head? = some a → p a = false) : l.dropWhile p = l := by
  cases l with
  | nil => rfl
  | cons a t => simp [List.dropWhile_cons, h a rfl]

lemma dropWhile_getLast_ne (p : Char → Bool) (l : Str)
    (h : ∀ a, l.getLast? = some a → p a = false) :
    (l.reverse.dropWhile p).reverse = l := by
  rw [dropWhile_head_ne p l.reverse]
  · exact l.reverse_reverse
  · intro a ha
    rw [List.head?_reverse] at ha
    exact h a ha

lemma rsTrim_ends (l : Str)
    (hh : ∀ a, l.head? = some a → rustIsWhitespace a = false)
    (hl : ∀ a, l.getLast? = some a → rustIsWhitespace a = false) :
    rsTrim l = l := by
  unfold rsTrim
  rw [dropWhile_head_ne _ l hh]
  exact dropWhile_getLast_ne _ l hl

lemma trimMatchesChar_ends (c : Char) (l : Str)
    (hh : ∀ a, l.head? = some a → (a == c) = false)
    (hl : ∀ a, l.getLast? = some a → (a == c) = false) :
    trimMatchesChar c l = l := by
  unfold trimMatchesChar
  rw [dropWhile_head_ne _ l hh]
  exact dropWhile_getLast_ne _ l hl

lemma trimMatchesChar_front (c : Char) (mid : Str)
    (hh : ∀ a, mid.head? = some a → (a == c) = false)
    (hl : ∀ a, mid.getLast? = some a → (a == c) = false) :
    trimMatchesChar c (c :: mid) = mid := by
  unfold trimMatchesChar
  have h1 : (c :: mid).dropWhile (fun d => d == c) = mid.dropWhile (fun d => d == c) := by
    simp [List.dropWhile_cons]
  rw [h1, dropWhile_head_ne _ mid hh]
  exact dropWhile_getLast_ne _ mid hl

lemma trimMatchesChar_wrap (c : Char) (name : Str) (hne : name ≠ [])
    (hnoc : ∀ x ∈ name, (x == c) = false) :
    trimMatchesChar c (c :: (name ++ [c])) = name := by
  unfold trimMatchesChar
  have h1 : (c :: (name ++ [c])).dropWhile (fun d => d == c) =
      (name ++ [c]).dropWhile (fun d => d == c) := by
    simp [List.dropWhile_cons]
  have h2 : (name ++ [c]).dropWhile (fun d => d == c) = name ++ [c] := by
    apply dropWhile_head_ne
    intro a ha
    cases name with
    | nil => exact absurd rfl hne
    | cons b t =>
      simp only [List.cons_append, List.head?_cons, Option.some.injEq] at ha
      subst ha
      exact hnoc _ (List.mem_cons_self _ _)
  rw [h1, h2]
  have h3 : (name ++ [c]).reverse = c :: name.reverse := by simp
  rw [h3]
  have h4 : (c :: name.reverse).dropWhile (fun d => d == c) =
      name.reverse.dropWhile (fun d => d == c) := by
    simp [List.dropWhile_cons]
  rw [h4, dropWhile_head_ne _ name.reverse ?hrev]
  · exact name.reverse_reverse
  case hrev =>
    intro a ha
    rw [List.head?_reverse] at ha
    exact hnoc a (mem_of_getLast?_eq name a ha)

lemma splitOnChar_ne_nil (sep : Char) : ∀ s : Str, splitOnChar sep s ≠ [] := by
  intro s
  cases s with
  | nil => simp [splitOnChar]
  | cons d rest =>
    rw [splitOnChar]
    split
    · simp
    · split <;> simp

lemma splitOnChar_headD (sep : Char) : ∀ s : Str,
    (splitOnChar sep s).headD [] = s.takeWhile (fun c => !(c == sep)) := by
  intro s
  induction s with
  | nil => rfl
  | cons d rest ih =>
    rw [splitOnChar]
    by_cases hd : (d == sep) = true
    · rw [if_pos hd]
      simp [List.takeWhile_cons, hd]
    · rw [if_neg hd]
      cases hsp : splitOnChar sep rest with
      | nil => exact absurd hsp (splitOnChar_ne_nil sep rest)
      | cons p ps =>
        have hp : p = rest.takeWhile (fun c => !(c == sep)) := by
          have := ih
          rw [hsp] at this
          simpa using this
        simp only [List.headD_cons, List.takeWhile_cons]
        rw [hp]
        simp only [Bool.not_eq_true] at hd
        simp [hd]

lemma takeWhile_all (p : Char → Bool) : ∀ l : Str, (∀ c ∈ l, p c = true) → l.takeWhile p = l := by
  intro l
  induction l with
  | nil => intro _; rfl
  | cons a t ih =>
    intro h
    rw [List.takeWhile_cons, if_pos (h a (List.mem_cons_self a t))]
    rw [ih (fun c hc => h c (List.mem_cons_of_mem a hc))]

lemma takeWhile_append_all (p : Char → Bool) : ∀ (s t : Str), (∀ c ∈ s, p c = true) →
    (s ++ t).takeWhile p = s ++ t.takeWhile p := by
  intro s
  induction s with
  | nil => intro t _; rfl
  | cons a s2 ih =>
    intro t h
    simp only [List.cons_append, List.takeWhile_cons, if_pos (h a (List.mem_cons_self a s2))]
    rw [ih t (fun c hc => h c (List.mem_cons_of_mem a hc))]

/-- C9 counterexample: the quote stripping runs before the semicolon
truncation, so a quoted filename followed by further parameters keeps its
closing quote: the extracted name carries a trailing quote character,
while the claim promises the bare name with no quote characters. -/
theorem C9_filename_attribute_counterexample :
    extract_filename_from_headers
      (("HTTP/1.1 200 OK\r\nContent-Disposition: attachment; filename=\"data.json\"; foo=bar").toList) =
      some (("data.json\"").toList) ∧
    ("data.json\"").toList ≠ ("data.json").toList := by decide

/-- C9 amended: the value after the first filename= is trimmed, stripped
of surrounding quote characters, then truncated at the next semicolon and
trimmed again; consequently a quoted filename that ends the line yields
the bare name, but a quoted filename followed by further
semicolon-separated parameters retains its closing double quote. -/
theorem C9_filename_attribute_amended :
    (∀ name : Str, name ≠ [] →
      (∀ c ∈ name, c ≠ Char.ofNat 34 ∧ c ≠ Char.ofNat 39 ∧ c ≠ ';' ∧
        rustIsWhitespace c = false) →
      parse_filename_value (Char.ofNat 34 :: (name ++ [Char.ofNat 34])) = name)
    ∧ (∀ (name params : Str), name ≠ [] →
        (∀ c ∈ name, c ≠ Char.ofNat 34 ∧ c ≠ Char.ofNat 39 ∧ c ≠ ';' ∧
          rustIsWhitespace c = false) →
        (∀ c, params.getLast? = some c →
          c ≠ Char.ofNat 34 ∧ c ≠ Char.ofNat 39 ∧ rustIsWhitespace c = false) →
        parse_filename_value (Char.ofNat 34 :: (name ++ Char.ofNat 34 :: ';' :: params)) =
          name ++ [Char.ofNat 34]) := by
  constructor
  · intro name hne hchars
    obtain ⟨b, t, rfl⟩ : ∃ b t, name = b :: t := by
      cases name with
      | nil => exact absurd rfl hne
      | cons b t => exact ⟨b, t, rfl⟩
    have e1 : rsTrim (Char.ofNat 34 :: ((b :: t) ++ [Char.ofNat 34])) =
        Char.ofNat 34 :: ((b :: t) ++ [Char.ofNat 34]) := by
      apply rsTrim_ends
      · intro a ha
        simp only [List.head?_cons, Option.some.injEq] at ha
        subst ha
        decide
      · intro a ha
        have hrw : Char.ofNat 34 :: ((b :: t) ++ [Char.ofNat 34]) =
            (Char.ofNat 34 :: b :: t) ++ [Char.ofNat 34] := by simp
        rw [hrw, List.getLast?_concat] at ha
        simp only [Option.some.injEq] at ha
        subst ha
        decide
    have e2 : trimMatchesChar (Char.ofNat 34) (Char.ofNat 34 :: ((b :: t) ++ [Char.ofNat 34])) =
        b :: t :=
      trimMatchesChar_wrap _ (b :: t) hne (fun x hx => by
        simpa [beq_eq_false_iff_ne] using (hchars x hx).1)
    have e3 : trimMatchesChar (Char.ofNat 39) (b :: t) = b :: t := by
      apply trimMatchesChar_ends
      · intro a ha
        simpa [beq_eq_false_iff_ne] using (hchars a (mem_of_head?_eq _ a ha)).2.1
      · intro a ha
        simpa [beq_eq_false_iff_ne] using (hchars a (mem_of_getLast?_eq _ a ha)).2.1
    have e4 : (splitOnChar ';' (b :: t)).headD [] = b :: t := by
      rw [splitOnChar_headD]
      apply takeWhile_all
      intro c hc
      simp [(hchars c hc).2.2.1]
    have e5 : rsTrim (b :: t) = b :: t := by
      apply rsTrim_ends
      · intro a ha
        exact (hchars a (mem_of_head?_eq _ a ha)).2.2.2
      · intro a ha
        exact (hchars a (mem_of_getLast?_eq _ a ha)).2.2.2
    unfold parse_filename_value
    rw [e1, e2, e3, e4, e5]
  · intro name params hne hchars hpar
    obtain ⟨b, t, rfl⟩ : ∃ b t, name = b :: t := by
      cases name with
      | nil => exact absurd rfl hne
      | cons b t => exact ⟨b, t, rfl⟩
    have hmidlast : ∀ a, ((b :: t) ++ Char.ofNat 34 :: ';' :: params).getLast? = some a →
        a ≠ Char.ofNat 34 ∧ a ≠ Char.ofNat 39 ∧ rustIsWhitespace a = false := by
      rcases List.eq_nil_or_concat params with rfl | ⟨ps, cE, hcat⟩
      · intro a ha
        have hrw : (b :: t) ++ Char.ofNat 34 :: ';' :: ([] : Str) =
            ((b :: t) ++ [Char.ofNat 34]) ++ [';'] := by simp
        rw [hrw, List.getLast?_concat] at ha
        simp only [Option.some.injEq] at ha
        subst ha
        exact ⟨by decide, by decide, by decide⟩
      · rw [hcat, List.concat_eq_append]
        intro a ha
        have hrw : (b :: t) ++ Char.ofNat 34 :: ';' :: (ps ++ [cE]) =
            ((b :: t) ++ Char.ofNat 34 :: ';' :: ps) ++ [cE] := by simp
        rw [hrw, List.getLast?_concat] at ha
        simp only [Option.some.injEq] at ha
        subst ha
        exact hpar _ (by rw [hcat, List.concat_eq_append]; exact List.getLast?_concat _)
    have hvlast : ∀ a,
        (Char.ofNat 34 :: ((b :: t) ++ Char.ofNat 34 :: ';' :: params)).getLast? = some a →
        a ≠ Char.ofNat 34 ∧ a ≠ Char.ofNat 39 ∧ rustIsWhitespace a = false := by
      intro a ha
      apply hmidlast a
      rw [List.cons_append] at ha ⊢
      rw [List.getLast?_cons_cons] at ha
      exact ha
    have e1 : rsTrim (Char.ofNat 34 :: ((b :: t) ++ Char.ofNat 34 :: ';' :: params)) =
        Char.ofNat 34 :: ((b :: t) ++ Char.ofNat 34 :: ';' :: params) := by
      apply rsTrim_ends
      · intro a ha
        simp only [List.head?_cons, Option.some.injEq] at ha
        subst ha
        decide
      · intro a ha
        exact (hvlast a ha).2.2
    have e2 : trimMatchesChar (Char.ofNat 34)
        (Char.ofNat 34 :: ((b :: t) ++ Char.ofNat 34 :: ';' :: params)) =
        (b :: t) ++ Char.ofNat 34 :: ';' :: params := by
      apply trimMatchesChar_front
      · intro a ha
        simp only [List.cons_append, List.head?_cons, Option.some.injEq] at ha
        subst ha
        simpa [beq_eq_false_iff_ne] using (hchars _ (List.mem_cons_self _ _)).1
      · intro a ha
        simpa [beq_eq_false_iff_ne] using (hmidlast a ha).1
    have e3 : trimMatchesChar (Char.ofNat 39) ((b :: t) ++ Char.ofNat 34 :: ';' :: params) =
        (b :: t) ++ Char.ofNat 34 :: ';' :: params := by
      apply trimMatchesChar_ends
      · intro a ha
        simp only [List.cons_append, List.head?_cons, Option.some.injEq] at ha
        subst ha
        simpa [beq_eq_false_iff_ne] using (hchars _ (List.mem_cons_self _ _)).2.1
      · intro a ha
        simpa [beq_eq_false_iff_ne] using (hmidlast a ha).2.1
    have e4 : (splitOnChar ';' ((b :: t) ++ Char.ofNat 34 :: ';' :: params)).headD [] =
        (b :: t) ++ [Char.ofNat 34] := by
      rw [splitOnChar_headD]
      rw [takeWhile_append_all _ (b :: t) _ (fun c hc => by simp [(hchars c hc).2.2.1])]
      rw [List.takeWhile_cons, if_pos (by decide), List.takeWhile_cons, if_neg (by decide)]
    have e5 : rsTrim ((b :: t) ++ [Char.ofNat 34]) = (b :: t) ++ [Char.ofNat 34] := by
      apply rsTrim_ends
      · intro a ha
        simp only [List.cons_append, List.head?_cons, Option.some.injEq] at ha
        subst ha
        exact (hchars _ (List.mem_cons_self _ _)).2.2.2
      · intro a ha
        have hrw : (b :: t) ++ [Char.ofNat 34] = (b :: t) ++ [Char.ofNat 34] := rfl
        rw [List.getLast?_concat] at ha
        simp only [Option.some.injEq] at ha
        subst ha
        decide
    unfold parse_filename_value
    rw [e1, e2, e3, e4, e5]

/-- C9 witness: a quoted name followed by another parameter yields the
name with its closing quote attached. -/
theorem C9_filename_attribute_amended_witness :
    parse_filename_value (Char.ofNat 34 :: ((("data.json").toList) ++
      Char.ofNat 34 :: ';' :: ((" foo=bar").toList))) =
      (("data.json").toList) ++ [Char.ofNat 34] := by
  exact C9_filename_attribute_amended.2 (("data.json").toList) ((" foo=bar").toList)
    (by decide) (by decide) (by decide)

/-! ## Claim C1 -/

lemma dws_err_of_ge400 (url : Str) (r : RawResponse) (u : UrlParts) (sl : Str) (code : Nat)
    (hp : parseUrl url = some u) (hs : u.scheme = ("https").toList)
    (hsl : (rsLines r.headers).head? = some sl)
    (hlen : ¬ (splitWhitespace sl).length < 2)
    (hcode : parseU16 ((splitWhitespace sl).getD 1 []) = some code)
    (hge : 400 ≤ code) :
    (download_web_service url (some r)).fst =
      .err ((("HTTP error: ").toList) ++ natToStr code) := by
  unfold download_web_service
  simp only [hp]
  rw [if_neg (by simp [hs])]
  simp only [hsl]
  rw [if_neg hlen]
  simp only [hcode]
  rw [if_pos hge]

lemma dws_ok_of_lt400 (url : Str) (r : RawResponse) (u : UrlParts) (sl : Str) (code : Nat)
    (hp : parseUrl url = some u) (hs : u.scheme = ("https").toList)
    (hsl : (rsLines r.headers).head? = some sl)
    (hlen : ¬ (splitWhitespace sl).length < 2)
    (hcode : parseU16 ((splitWhitespace sl).getD 1 []) = some code)
    (hlt : code < 400) (hchunk : isChunkedHeaders r.headers = false) :
    (download_web_service url (some r)).fst = .ok r.body (wsFilename r.headers) := by
  have hdec : decode_body r.headers r.body = some r.body := by
    unfold decode_body
    rw [if_neg (bool_not_true hchunk)]
  unfold download_web_service
  simp only [hp]
  rw [if_neg (by simp [hs])]
  simp only [hsl]
  rw [if_neg hlen]
  simp only [hcode]
  rw [if_neg (by omega)]
  simp only [hdec]

/-- C1 counterexample: the two public operations do not run the same
status-interpretation machine.  On a 429 response with Retry-After 3,
download_web_service surfaces an immediate HTTP error without any
Retry-After sleep, while download_file retries and succeeds; on a 301
response with a Location, download_web_service returns the redirect
response body as a success without following the Location. -/
theorem C1_shared_state_machine_counterexample :
    (download_web_service urlEx (some resp429)).fst = .err (("HTTP error: 429").toList) ∧
    (download_web_service urlEx (some resp429)).snd = [Event.sleepRate, Event.connect urlEx] ∧
    (download_web_service urlEx (some resp301)).fst = .ok [1, 2] (("response.txt").toList) ∧
    (download_web_service urlEx (some resp301)).snd = [Event.sleepRate, Event.connect urlEx] ∧
    (download_file 5 (("index.html").toList) urlEx [resp429, resp200]).fst =
      .ok (("a").toList) [104, 105] := by decide

/-- C1 amended: only download_file runs the redirect and rate-limit state
machine: a followed redirect continues with the resolved Location URL and
an incremented count, and a 429 sleeps per Retry-After and retries the
identical URL.  download_web_service performs a single request with no
continuation: every parsed status of 400 or above, 429 included, surfaces
immediately as an HTTP error, and every parsed status below 400, redirect
statuses included, is treated as success returning the response body. -/
theorem C1_shared_state_machine_amended :
    (∀ (url : Str) (r : RawResponse) (u : UrlParts) (sl : Str) (code : Nat),
      parseUrl url = some u → u.scheme = ("https").toList →
      (rsLines r.headers).head? = some sl →
      ¬ (splitWhitespace sl).length < 2 →
      parseU16 ((splitWhitespace sl).getD 1 []) = some code →
      400 ≤ code →
      (download_web_service url (some r)).fst =
        .err ((("HTTP error: ").toList) ++ natToStr code))
    ∧ (∀ (url : Str) (r : RawResponse) (u : UrlParts) (sl : Str) (code : Nat),
        parseUrl url = some u → u.scheme = ("https").toList →
        (rsLines r.headers).head? = some sl →
        ¬ (splitWhitespace sl).length < 2 →
        parseU16 ((splitWhitespace sl).getD 1 []) = some code →
        code < 400 → isChunkedHeaders r.headers = false →
        (download_web_service url (some r)).fst = .ok r.body (wsFilename r.headers))
    ∧ (∀ (maxR : Nat) (d : Str) (r : RawResponse) (rest : List RawResponse) (url : Str)
        (red : Nat) (u : UrlParts) (loc : Str),
        red < maxR → parseUrl url = some u → u.scheme = ("https").toList →
        hasRedirectStatus (statusLineOf r.headers) = true →
        locationValue r.headers = some loc →
        dlLoop maxR d (r :: rest) url red =
          ((dlLoop maxR d rest (resolveRedirect u loc) (red + 1)).fst,
            Event.sleepRate :: Event.connect url ::
              (dlLoop maxR d rest (resolveRedirect u loc) (red + 1)).snd))
    ∧ (∀ (maxR : Nat) (d : Str) (r : RawResponse) (rest : List RawResponse) (url : Str)
        (red : Nat) (u : UrlParts),
        red < maxR → parseUrl url = some u → u.scheme = ("https").toList →
        hasRedirectStatus (statusLineOf r.headers) = false →
        containsSub ((" 429 ").toList) (statusLineOf r.headers) = true →
        dlLoop maxR d (r :: rest) url red =
          ((dlLoop maxR d rest url red).fst,
            Event.sleepRate :: Event.connect url ::
              Event.sleepRetry (retryAfterOf r.headers) :: (dlLoop maxR d rest url red).snd)) := by
  refine ⟨?_, ?_, ?_, ?_⟩
  · intro url r u sl code hp hs hsl hlen hcode hge
    exact dws_err_of_ge400 url r u sl code hp hs hsl hlen hcode hge
  · intro url r u sl code hp hs hsl hlen hcode hlt hchunk
    exact dws_ok_of_lt400 url r u sl code hp hs hsl hlen hcode hlt hchunk
  · intro maxR d r rest url red u loc hred hp hs h1 hloc
    exact dlLoop_redirect maxR d r rest url red u (resolveRedirect u loc) hred hp hs
      (interpretResponse_redirect_eq u d r loc h1 hloc)
  · intro maxR d r rest url red u hred hp hs h1 h2
    exact dlLoop_retry maxR d r rest url red u (retryAfterOf r.headers) hred hp hs
      (interpretResponse_retry_eq u d r h1 h2)

/-- C1 witness: the concrete 429 response makes download_web_service
fail with the HTTP error 429. -/
theorem C1_shared_state_machine_amended_witness :
    (download_web_service urlEx (some resp429)).fst =
      .err ((("HTTP error: ").toList) ++ natToStr 429) := by
  exact C1_shared_state_machine_amended.1 urlEx resp429
    ⟨("https").toList, ("example.test").toList, ("/a").toList⟩
    (("HTTP/1.1 429 Too Many Requests").toList) 429
    (by decide) (by decide) (by decide) (by decide) (by decide) (by omega)

end Download
